import Mathlib

/-!
Verification of the Change Intelligence Service core (event store, service
dependency graph, blast-radius analyzer, change correlator) against its
natural-language specification.

The TypeScript sources are shallowly embedded: insertion-ordered JS `Map`s
become association lists, JS `Set`s become duplicate-free lists in insertion
order, ISO-8601 timestamps become integer epoch milliseconds (ISO strings of
the format emitted by `toISOString` compare lexicographically exactly as
their numeric instants do), and JS numbers become rationals.  `Math.exp`,
the only transcendental operation, is abstracted as an explicit decay-function
parameter; every concrete scenario proved here only evaluates it at 0, where
`Math.exp` returns exactly 1.
-/

namespace CI

/-- First-match lookup in an insertion-ordered association list
(JS `Map.get`). -/
def mapGet (m : List (String × α)) (k : String) : Option α :=
  match m.find? (fun p => p.1 = k) with
  | some p => some p.2
  | none => none

/-- Lookup with default. -/
def mapGetD (m : List (String × α)) (k : String) (d : α) : α :=
  (mapGet m k).getD d

/-- JS `Map.set`: update in place when the key exists (keeping its position),
append otherwise. -/
def mapSet (m : List (String × α)) (k : String) (v : α) : List (String × α) :=
  match m with
  | [] => [(k, v)]
  | p :: rest => if p.1 = k then (k, v) :: rest else p :: mapSet rest k v

/-- JS `Set.add` on an insertion-ordered duplicate-free list: no-op when the
element is present, append otherwise. -/
def setAdd (l : List String) (x : String) : List String :=
  if x ∈ l then l else l ++ [x]

/-- JS `Set.delete`. -/
def setDelete (l : List String) (x : String) : List String :=
  l.filter (fun y => y ≠ x)

/-- Stable insertion of `x` into `l`: `x` is placed before the first element
`y` with `le x y`.  Used to model JS `Array.prototype.sort`, which is stable. -/
def insertBy (le : α → α → Bool) (x : α) : List α → List α
  | [] => [x]
  | y :: ys => if le x y then x :: y :: ys else y :: insertBy le x ys

/-- Stable sort (models JS `Array.prototype.sort` with a comparator). -/
def sortBy (le : α → α → Bool) : List α → List α
  | [] => []
  | x :: xs => insertBy le x (sortBy le xs)

/-- JS `x || d` for an optional string: `undefined` and the empty string both
fall back to the default. -/
def orElseStr (x : Option String) (d : String) : String :=
  match x with
  | some s => if s = "" then d else s
  | none => d

/-- Edge criticality (`'critical' | 'degraded' | 'optional'`). -/
inductive Crit where
  | critical
  | degraded
  | optionalC
  deriving DecidableEq, Repr

/-- The numeric order used by `mergeCriticality`
(`{ critical: 0, degraded: 1, optional: 2 }`). -/
def critOrder : Crit → Nat
  | .critical => 0
  | .degraded => 1
  | .optionalC => 2

/-- `ServiceGraph.mergeCriticality`: weakest-link merge
(`return order[a] >= order[b] ? a : b`). -/
def mergeCriticality (a b : Crit) : Crit :=
  if critOrder b ≤ critOrder a then a else b

/-- `ServiceGraph.normalizeConfidence`: absent (or non-numeric) confidence
defaults to 1, otherwise clamp into [0, 1]. -/
def normalizeConfidence (c : Option ℚ) : ℚ :=
  match c with
  | none => 1
  | some x => max 0 (min 1 x)

/-- The valid `EdgeSource` tags. -/
def edgeSourceTags : List String :=
  ["config", "manual", "backstage", "otel", "kube-labels",
   "inferred", "discovered", "import", "mcp-import"]

/-- `ServiceGraph.inferEdgeSource`: read `metadata.source` when it is one of
the valid tags, default to `"manual"`. -/
def inferEdgeSource (metadataSource : Option String) : String :=
  match metadataSource with
  | some s => if s ∈ edgeSourceTags then s else "manual"
  | none => "manual"

/-- A `ServiceNode`.  The free-form `metadata` record is modelled by its only
field the core ever reads, `metadata.source` (provenance tag). -/
structure ServiceNode where
  id : String
  name : String
  typ : String
  team : Option String := none
  owner : Option String := none
  tier : Option String := none
  repository : Option String := none
  tags : List String := []
  metadataSource : Option String := none
  createdAt : Int
  updatedAt : Int
  deriving DecidableEq, Repr

/-- The timestamp-free part of a node (`Omit<ServiceNode, 'createdAt' | 'updatedAt'>`),
the argument type of `addService`. -/
structure ServiceNodeData where
  id : String
  name : String
  typ : String
  team : Option String := none
  owner : Option String := none
  tier : Option String := none
  repository : Option String := none
  tags : List String := []
  metadataSource : Option String := none
  deriving DecidableEq, Repr

/-- A `DependencyEdge` (sans its derived `id`, which is the association-list
key).  `edgeSource`, `confidence` and `lastSeen` are optional on input and
always filled in by `addDependency`. -/
structure DependencyEdge where
  source : String
  target : String
  typ : String
  criticality : Crit
  edgeSource : Option String := none
  confidence : Option ℚ := none
  lastSeen : Option Int := none
  metadataSource : Option String := none
  deriving DecidableEq, Repr

/-- An `ImpactPath` produced by the impact traversals. -/
structure ImpactPath where
  source : String
  affected : String
  path : List String
  hops : Nat
  criticality : Crit
  confidence : ℚ
  edgeSources : List String
  deriving DecidableEq, Repr

/-- The `ServiceGraph` state: nodes and edges are insertion-ordered maps,
`outgoing`/`incoming` map a node id to the insertion-ordered set of incident
edge ids. -/
structure ServiceGraph where
  nodes : List (String × ServiceNode) := []
  edges : List (String × DependencyEdge) := []
  outgoing : List (String × List String) := []
  incoming : List (String × List String) := []
  deriving DecidableEq, Repr

/-- The empty graph (`new ServiceGraph()`). -/
def ServiceGraph.empty : ServiceGraph := {}

/-- The node record built by `addService`
(`{ ...service, createdAt: now, updatedAt: now }`). -/
def stampNode (now : Int) (s : ServiceNodeData) : ServiceNode :=
  { id := s.id, name := s.name, typ := s.typ, team := s.team, owner := s.owner,
    tier := s.tier, repository := s.repository, tags := s.tags,
    metadataSource := s.metadataSource, createdAt := now, updatedAt := now }

/-- `ServiceGraph.addService`: stamp `createdAt`/`updatedAt` with now, store
the node, and make sure both adjacency entries exist. -/
def ServiceGraph.addService (g : ServiceGraph) (now : Int) (s : ServiceNodeData) :
    ServiceGraph :=
  { g with
    nodes := mapSet g.nodes s.id (stampNode now s)
    outgoing := if (mapGet g.outgoing s.id).isSome then g.outgoing
                else mapSet g.outgoing s.id []
    incoming := if (mapGet g.incoming s.id).isSome then g.incoming
                else mapSet g.incoming s.id [] }

/-- Append an edge id to a node's adjacency set, creating the entry when
missing (`if (!map.has(k)) map.set(k, new Set()); map.get(k)!.add(id)`). -/
def adjAdd (m : List (String × List String)) (k id : String) :
    List (String × List String) :=
  mapSet m k (setAdd (mapGetD m k []) id)

/-- The canonical edge id `"{source}->{target}"`. -/
def edgeKey (e : DependencyEdge) : String :=
  e.source ++ "->" ++ e.target

/-- The `fullEdge` record built by `addDependency`: defaulted
`edgeSource` (falling back to the metadata-inferred tag), normalized
`confidence`, defaulted `lastSeen`. -/
def normalizeEdge (now : Int) (e : DependencyEdge) : DependencyEdge :=
  { e with
    edgeSource := some (orElseStr e.edgeSource (inferEdgeSource e.metadataSource))
    confidence := some (normalizeConfidence e.confidence)
    lastSeen := some ((e.lastSeen).getD now) }

/-- `ServiceGraph.addDependency`: canonical id `"{source}->{target}"`,
defaulted `edgeSource`/`confidence`/`lastSeen`, and both adjacency updates. -/
def ServiceGraph.addDependency (g : ServiceGraph) (now : Int) (e : DependencyEdge) :
    ServiceGraph :=
  { g with
    edges := mapSet g.edges (edgeKey e) (normalizeEdge now e)
    outgoing := adjAdd g.outgoing e.source (edgeKey e)
    incoming := adjAdd g.incoming e.target (edgeKey e) }

/-- The edge-iteration loop shared by `getUpstreamImpact` (over `incoming`
edges, next node `edge.source`) and `getDownstreamImpact` (over `outgoing`
edges, next node `edge.target`).  For each edge id: look the edge up (skip
silently when missing), extend the path, merge criticality (weakest link),
take the running minimum confidence, accumulate the provenance-tag set, emit
the `ImpactPath`, then recurse into the next node via `child` (the traversal
one depth level down), threading the shared visited set. -/
def goEdges (g : ServiceGraph) (sid : String) (nxt : DependencyEdge → String)
    (child : String → List String → Crit → ℚ → List String → List String →
             List ImpactPath × List String) :
    List String → List String → Crit → ℚ → List String → List String →
    List ImpactPath × List String
  | [], _, _, _, _, vis => ([], vis)
  | eid :: rest, path, crit, conf, srcs, vis =>
    match mapGet g.edges eid with
    | none => goEdges g sid nxt child rest path crit conf srcs vis
    | some e =>
      let newPath := path ++ [nxt e]
      let newCrit := mergeCriticality crit e.criticality
      let newConf := min conf (normalizeConfidence e.confidence)
      let newSrcs := setAdd srcs (orElseStr e.edgeSource (inferEdgeSource e.metadataSource))
      let emitted : ImpactPath :=
        { source := sid, affected := nxt e, path := newPath,
          hops := newPath.length, criticality := newCrit,
          confidence := newConf, edgeSources := newSrcs }
      let r1 := child (nxt e) newPath newCrit newConf newSrcs vis
      let r2 := goEdges g sid nxt child rest path crit conf srcs r1.2
      (emitted :: (r1.1 ++ r2.1), r2.2)

/-- The recursive `traverse` closure of `getUpstreamImpact`.  `fuel` stands
for `maxDepth + 1 - depth`: the source checks `depth > maxDepth` on entry to
a node (before expanding its edges), which is `fuel = 0` here. -/
def traverseUp (g : ServiceGraph) (sid : String) :
    Nat → String → List String → Crit → ℚ → List String → List String →
    List ImpactPath × List String
  | 0, _, _, _, _, _, vis => ([], vis)
  | fuel + 1, current, path, crit, conf, srcs, vis =>
    if current ∈ vis then ([], vis)
    else goEdges g sid (fun e => e.source) (traverseUp g sid fuel)
      (mapGetD g.incoming current []) path crit conf srcs (vis ++ [current])

/-- The recursive `traverse` closure of `getDownstreamImpact`. -/
def traverseDown (g : ServiceGraph) (sid : String) :
    Nat → String → List String → Crit → ℚ → List String → List String →
    List ImpactPath × List String
  | 0, _, _, _, _, _, vis => ([], vis)
  | fuel + 1, current, path, crit, conf, srcs, vis =>
    if current ∈ vis then ([], vis)
    else goEdges g sid (fun e => e.target) (traverseDown g sid fuel)
      (mapGetD g.outgoing current []) path crit conf srcs (vis ++ [current])

/-- Ascending-by-hops stable sort applied to traversal results
(`paths.sort((a, b) => a.hops - b.hops)`). -/
def sortByHops (l : List ImpactPath) : List ImpactPath :=
  sortBy (fun a b => a.hops ≤ b.hops) l

/-- `ServiceGraph.getUpstreamImpact(serviceId, maxDepth)`: consumers of the
target, via bounded DFS over `incoming` edges starting from
`([serviceId], depth 0, 'critical', confidence 1, no tags)`. -/
def ServiceGraph.getUpstreamImpact (g : ServiceGraph) (sid : String)
    (maxDepth : Nat := 5) : List ImpactPath :=
  sortByHops (traverseUp g sid (maxDepth + 1) sid [sid] .critical 1 [] []).1

/-- `ServiceGraph.getDownstreamImpact(serviceId, maxDepth)`: providers of the
target, via bounded DFS over `outgoing` edges. -/
def ServiceGraph.getDownstreamImpact (g : ServiceGraph) (sid : String)
    (maxDepth : Nat := 5) : List ImpactPath :=
  sortByHops (traverseDown g sid (maxDepth + 1) sid [sid] .critical 1 [] []).1

/-- The inner edge loop of `findPath`: returns either the found path or the
queue extended with the unvisited neighbours. -/
def findPathScan (g : ServiceGraph) (dst : String) (path : List String)
    (vis : List String) :
    List String → List (String × List String) →
    Option (List String) × List (String × List String)
  | [], q => (none, q)
  | eid :: rest, q =>
    match mapGet g.edges eid with
    | none => findPathScan g dst path vis rest q
    | some e =>
      let newPath := path ++ [e.target]
      if e.target = dst then (some newPath, q)
      else findPathScan g dst path vis rest
        (if e.target ∈ vis then q else q ++ [(e.target, newPath)])

/-- The BFS loop of `findPath`.  `fuel` bounds the number of dequeue steps;
`findPath` passes a fuel large enough that it never runs out (each queue
entry is dequeued once and at most one entry is enqueued per outgoing edge
id of a freshly visited node). -/
def findPathAux (g : ServiceGraph) (dst : String) :
    Nat → List String → List (String × List String) → Option (List String)
  | 0, _, _ => none
  | _ + 1, _, [] => none
  | fuel + 1, vis, (node, path) :: queue =>
    if node ∈ vis then findPathAux g dst fuel vis queue
    else
      match findPathScan g dst path (vis ++ [node]) (mapGetD g.outgoing node []) queue with
      | (some p, _) => some p
      | (none, q2) => findPathAux g dst fuel (vis ++ [node]) q2

/-- `ServiceGraph.findPath(from, to)`: BFS over outgoing edges; first found
path (shortest by edge count) or nil. -/
def ServiceGraph.findPath (g : ServiceGraph) (src dst : String) :
    Option (List String) :=
  if src = dst then some [src]
  else if (mapGet g.nodes src).isSome ∧ (mapGet g.nodes dst).isSome then
    findPathAux g dst ((g.outgoing.map (fun p => p.2.length)).sum + 2) []
      [(src, [src])]
  else none

/-- The `{ nodes, edges }` payload of `toJSON` (the JSON-string layer is
transparent: every field of the embedded records round-trips through the
JSON encoding byte-for-byte). -/
structure GraphJSON where
  nodes : List ServiceNode
  edges : List DependencyEdge
  deriving DecidableEq, Repr

/-- `ServiceGraph.toJSON`: serialize node and edge values in insertion
order. -/
def ServiceGraph.toJSON (g : ServiceGraph) : GraphJSON :=
  { nodes := g.nodes.map (fun p => p.2), edges := g.edges.map (fun p => p.2) }

/-- Forget a node's timestamps (what `addService` keeps of its argument). -/
def nodeData (n : ServiceNode) : ServiceNodeData :=
  { id := n.id, name := n.name, typ := n.typ, team := n.team, owner := n.owner,
    tier := n.tier, repository := n.repository, tags := n.tags,
    metadataSource := n.metadataSource }

/-- `ServiceGraph.fromJSON`: rebuild a fresh graph by re-adding every node
and edge.  `addService` restamps `createdAt`/`updatedAt` with the time of
restoration (its parameter type omits them), so the parsed dates are
discarded. -/
def ServiceGraph.fromJSON (j : GraphJSON) (now : Int) : ServiceGraph :=
  let g := j.nodes.foldl (fun g n => g.addService now (nodeData n)) ServiceGraph.empty
  j.edges.foldl (fun g e => g.addDependency now e) g

/-- A stored `ChangeEvent` row.  Timestamps are epoch milliseconds; the
`blastRadius` attachment is represented by the only field the core ever
reads back from it, `riskLevel`; `metadata` keeps its string-valued entries
(the only ones provenance extraction accepts).  `idempotencyKey` is the
spec's idempotency-index column (§3, §6), which the copy of `store.ts`
under review omits even though the batch route and the store tests use it. -/
structure ChangeEvent where
  id : String
  timestamp : Int
  service : String
  additionalServices : List String
  changeType : String
  source : String
  initiator : String
  initiatorIdentity : Option String
  status : String
  environment : String
  commitSha : Option String
  prNumber : Option String
  prUrl : Option String
  repository : Option String
  branch : Option String
  summary : String
  diff : Option String
  filesChanged : List String
  configKeys : List String
  previousVersion : Option String
  newVersion : Option String
  blastRadiusRisk : Option String
  tags : List String
  metadata : List (String × String)
  createdAt : Int
  updatedAt : Int
  idempotencyKey : Option String
  canonicalUrl : Option String
  deriving DecidableEq, Repr

/-- The argument of `insert`
(`Partial<ChangeEvent> & { service; changeType; summary }`): everything
optional except `service`, `changeType`, `summary` — which may still be
empty strings. -/
structure NewEvent where
  id : Option String := none
  timestamp : Option Int := none
  service : String
  additionalServices : Option (List String) := none
  changeType : String
  source : Option String := none
  initiator : Option String := none
  initiatorIdentity : Option String := none
  status : Option String := none
  environment : Option String := none
  commitSha : Option String := none
  prNumber : Option String := none
  prUrl : Option String := none
  repository : Option String := none
  branch : Option String := none
  summary : String
  diff : Option String := none
  filesChanged : Option (List String) := none
  configKeys : Option (List String) := none
  previousVersion : Option String := none
  newVersion : Option String := none
  blastRadiusRisk : Option String := none
  tags : Option (List String) := none
  metadata : Option (List (String × String)) := none
  createdAt : Option Int := none
  updatedAt : Option Int := none
  idempotencyKey : Option String := none
  deriving DecidableEq, Repr

/-- `ChangeEventStore.insert`: fill defaults (`id` = supplied or fresh UUID,
here the `genId` parameter; `timestamp` = now; `source` = manual; `initiator`
= unknown; `status` = completed; `environment` = production; empty
collections), build the full event, append the row, return the event.  There
is no validation: empty `service`/`changeType`/`summary` strings are stored
as-is.  `idempotencyKey` persistence follows the spec's idempotency index
(absent from the reviewed `store.ts`; asserted by the store tests). -/
def insert (tbl : List ChangeEvent) (now : Int) (genId : String) (p : NewEvent) :
    ChangeEvent × List ChangeEvent :=
  let full : ChangeEvent :=
    { id := orElseStr p.id genId
      timestamp := p.timestamp.getD now
      service := p.service
      additionalServices := p.additionalServices.getD []
      changeType := p.changeType
      source := orElseStr p.source "manual"
      initiator := orElseStr p.initiator "unknown"
      initiatorIdentity := p.initiatorIdentity
      status := orElseStr p.status "completed"
      environment := orElseStr p.environment "production"
      commitSha := p.commitSha
      prNumber := p.prNumber
      prUrl := p.prUrl
      repository := p.repository
      branch := p.branch
      summary := p.summary
      diff := p.diff
      filesChanged := p.filesChanged.getD []
      configKeys := p.configKeys.getD []
      previousVersion := p.previousVersion
      newVersion := p.newVersion
      blastRadiusRisk := p.blastRadiusRisk
      tags := p.tags.getD []
      metadata := p.metadata.getD []
      createdAt := p.createdAt.getD now
      updatedAt := p.updatedAt.getD now
      idempotencyKey := p.idempotencyKey
      canonicalUrl := none }
  (full, tbl ++ [full])

/-- `ChangeEventStore.get(id)`: the row with that primary key, or nil. -/
def get (tbl : List ChangeEvent) (id : String) : Option ChangeEvent :=
  tbl.find? (fun e => e.id = id)

/-- Modelled from the spec: `getByIdempotencyKey(key) → ChangeEvent?` and the
`(idempotency_key UNIQUE WHERE NOT NULL)` index are missing from the
reviewed `store.ts` (only the batch route and the store tests reference
them).  Per spec §4.1 it returns the matching event or nil. -/
def getByIdempotencyKey (tbl : List ChangeEvent) (key : String) :
    Option ChangeEvent :=
  tbl.find? (fun e => e.idempotencyKey = some key)

/-- Outcome facet of one batch-route event: HTTP 201 (`created`) vs
200-on-duplicate (`duplicate`). -/
inductive IngestStatus where
  | created
  | duplicate
  deriving DecidableEq, Repr

/-- The per-event ingest flow of the batch route (`routes/batch.ts`): when a
(non-empty — JS truthiness) `idempotencyKey` is supplied and
`getByIdempotencyKey` finds an existing event, report a duplicate with the
existing id and leave the store untouched; otherwise insert.  Returns
(returned id, created/duplicate, updated table). -/
def ingestOne (tbl : List ChangeEvent) (now : Int) (genId : String)
    (p : NewEvent) : String × IngestStatus × List ChangeEvent :=
  let hasKey : Bool :=
    match p.idempotencyKey with
    | some k => k ≠ ""
    | none => false
  if hasKey then
    match getByIdempotencyKey tbl (p.idempotencyKey.getD "") with
    | some existing => (existing.id, .duplicate, tbl)
    | none =>
      let r := insert tbl now genId p
      (r.1.id, .created, r.2)
  else
    let r := insert tbl now genId p
    (r.1.id, .created, r.2)

/-- `ChangeQueryOptions`. -/
structure ChangeQueryOptions where
  services : List String := []
  changeTypes : List String := []
  sources : List String := []
  environment : Option String := none
  since : Option Int := none
  untilTs : Option Int := none
  initiator : Option String := none
  status : Option String := none
  limit : Option Nat := none
  deriving Repr

/-- The WHERE clause of `query`: AND of every supplied filter.  A `services`
filter matches the primary `service` column or membership in the
JSON-encoded `additional_services` column (the `LIKE '%"s"%'` containment
test). -/
def matchesQuery (o : ChangeQueryOptions) (e : ChangeEvent) : Prop :=
  (o.services ≠ [] →
    e.service ∈ o.services ∨ ∃ s ∈ o.services, s ∈ e.additionalServices) ∧
  (o.changeTypes ≠ [] → e.changeType ∈ o.changeTypes) ∧
  (o.sources ≠ [] → e.source ∈ o.sources) ∧
  (∀ v ∈ o.environment, e.environment = v) ∧
  (∀ v ∈ o.since, v ≤ e.timestamp) ∧
  (∀ v ∈ o.untilTs, e.timestamp ≤ v) ∧
  (∀ v ∈ o.initiator, e.initiator = v) ∧
  (∀ v ∈ o.status, e.status = v)

instance (o : ChangeQueryOptions) (e : ChangeEvent) : Decidable (matchesQuery o e) := by
  unfold matchesQuery; infer_instance

/-- `ChangeEventStore.query(options)`: filter, `ORDER BY timestamp DESC`
(stable, so insertion order breaks ties), `LIMIT` (default 50; a limit of 0
is falsy in `options.limit || 50` and also yields 50). -/
def query (tbl : List ChangeEvent) (o : ChangeQueryOptions) : List ChangeEvent :=
  let lim : Nat :=
    match o.limit with
    | some n => if n = 0 then 50 else n
    | none => 50
  (sortBy (fun a b => b.timestamp ≤ a.timestamp)
    (tbl.filter (fun e => decide (matchesQuery o e)))).take lim

/-- `getRecentForServices(services, windowMinutes)` =
`query({ services, since: now - window, limit: 100 })`. -/
def getRecentForServices (tbl : List ChangeEvent) (now : Int)
    (services : List String) (windowMinutes : Int) : List ChangeEvent :=
  query tbl { services := services, since := some (now - windowMinutes * 60000),
              limit := some 100 }

/-- A `ChangeVelocityMetric`. -/
structure ChangeVelocityMetric where
  service : String
  windowStart : Int
  windowEnd : Int
  changeCount : Nat
  changeTypes : List (String × Nat)
  averageIntervalMinutes : ℚ
  deriving DecidableEq, Repr

/-- Per-change-type counts of a row set (the `GROUP BY change_type`
aggregation), keyed in first-appearance order. -/
def countByType (l : List ChangeEvent) : List (String × Nat) :=
  l.foldl (fun m e => mapSet m e.changeType (mapGetD m e.changeType 0 + 1)) []

/-- `ChangeEventStore.getVelocityTrend(service, windowMinutes, periods)`:
window `i` (0 = most recent) spans
`[now - (i+1)·w, now - i·w]` and its row set is
`service = ? AND timestamp >= periodStart AND timestamp <= periodEnd` —
both bounds inclusive.  Metrics are built newest-first and reversed. -/
def getVelocityTrend (tbl : List ChangeEvent) (now : Int) (service : String)
    (windowMinutes : Int) (periods : Nat) : List ChangeVelocityMetric :=
  ((List.range periods).map (fun (i : Nat) =>
    let periodEnd := now - (i : Int) * windowMinutes * 60000
    let periodStart := periodEnd - windowMinutes * 60000
    let rows := tbl.filter (fun e =>
      e.service = service ∧ periodStart ≤ e.timestamp ∧ e.timestamp ≤ periodEnd)
    { service := service
      windowStart := periodStart
      windowEnd := periodEnd
      changeCount := rows.length
      changeTypes := countByType rows
      averageIntervalMinutes :=
        if rows.length > 1 then (windowMinutes : ℚ) / rows.length else 0 })).reverse

/-- An `EvidenceLink`.  The free-form `details` payload is never read back or
used in deduplication and is elided. -/
structure EvidenceLink where
  typ : String
  label : String
  url : Option String := none
  source : Option String := none
  eventId : Option String := none
  timestamp : Option Int := none
  deriving DecidableEq, Repr

/-- The `(type, url, label)` dedupe key shared by the correlator and
provenance (`` `${item.type}|${item.url || ''}|${item.label}` ``). -/
def evidenceKey (l : EvidenceLink) : String :=
  l.typ ++ "|" ++ l.url.getD "" ++ "|" ++ l.label

/-- Deduplicate evidence by key, keeping first occurrences. -/
def dedupeEvidence (evidence : List EvidenceLink) : List EvidenceLink :=
  (evidence.foldl
    (fun acc item =>
      if evidenceKey item ∈ acc.1 then acc
      else (acc.1 ++ [evidenceKey item], acc.2 ++ [item]))
    (([] : List String), ([] : List EvidenceLink))).2

/-- JS truthiness for an optional string (undefined and empty both falsy). -/
def optTruthy (o : Option String) : Option String :=
  match o with
  | some s => if s = "" then none else some s
  | none => none

/-- `hasHttpPrefix` of provenance.ts. -/
def isHttpUrl (v : String) : Bool :=
  v.startsWith "http://" || v.startsWith "https://"

/-- `s.includes(sub)` on strings. -/
def containsSub (s sub : String) : Bool :=
  (s.splitOn sub).length > 1

/-- Strip one occurrence of a suffix (one `replace(/suf$/, '')`). -/
def stripSuffixStr (s suf : String) : String :=
  if s.endsWith suf then s.dropRight suf.length else s

/-- `METADATA_URL_KEYS`. -/
def metadataUrlKeys : List String :=
  ["url", "run_url", "pipeline_url", "deployment_url", "workflow_url",
   "compare_url", "mr_url", "pr_url"]

/-- `readMetadataString`: a string-valued metadata entry with non-blank
trimmed content. -/
def readMetadataString (metadata : List (String × String)) (key : String) :
    Option String :=
  match mapGet metadata key with
  | some v => if (v.trim).length > 0 then some v else none
  | none => none

/-- `inferRepoBaseUrl`: a full URL loses `.git`/trailing-slash suffixes, an
`org/repo` slug is prefixed with the gitlab.com or github.com base, anything
else yields nothing. -/
def inferRepoBaseUrl (e : ChangeEvent) : Option String :=
  match e.repository with
  | none => none
  | some r =>
    if isHttpUrl r then some (stripSuffixStr (stripSuffixStr r ".git") "/")
    else if r.contains '/' then
      if e.source = "gitlab" then some ("https://gitlab.com/" ++ r)
      else some ("https://github.com/" ++ r)
    else none

/-- `inferCommitUrl`: a GitLab-style commit URL (with the extra dash path
segment) when the source is gitlab, GitHub-style `{base}/commit/{sha}`
otherwise. -/
def inferCommitUrl (e : ChangeEvent) : Option String :=
  match optTruthy e.commitSha with
  | none => none
  | some sha =>
    match inferRepoBaseUrl e with
    | none => none
    | some base =>
      if e.source = "gitlab" then some (base ++ "/-/commit/" ++ sha)
      else some (base ++ "/commit/" ++ sha)

/-- The evidence-type classification of a metadata URL key. -/
def metadataLinkType (e : ChangeEvent) (key : String) : String :=
  if key = "run_url" ∧ e.source = "terraform" then "terraform_run"
  else if containsSub key "pipeline" then "pipeline_run"
  else if containsSub key "deploy" ∨ containsSub key "workflow" then "deployment_run"
  else if key = "mr_url" ∨ key = "pr_url" then "pull_request"
  else "other"

/-- `extractEventEvidence(event)`: the local event link, then PR, commit,
canonical-URL and recognized metadata-URL links, deduplicated by
`(type, url, label)`. -/
def extractEventEvidence (e : ChangeEvent) : List EvidenceLink :=
  let base : List EvidenceLink :=
    [{ typ := "event", label := "Change event " ++ e.id,
       url := some ("/api/v1/events/" ++ e.id), eventId := some e.id,
       source := some e.source, timestamp := some e.timestamp }]
  let base :=
    match optTruthy e.prUrl with
    | some u =>
      base ++ [{ typ := "pull_request",
                 label := ("PR " ++ orElseStr e.prNumber "").trim,
                 url := some u, eventId := some e.id, source := some e.source,
                 timestamp := some e.timestamp }]
    | none => base
  let base :=
    match inferCommitUrl e with
    | some cu =>
      base ++ [{ typ := "commit",
                 label :=
                   match optTruthy e.commitSha with
                   | some sha => "Commit " ++ sha.take 12
                   | none => "Commit",
                 url := some cu, eventId := some e.id, source := some e.source,
                 timestamp := some e.timestamp }]
    | none => base
  let base :=
    match optTruthy e.canonicalUrl with
    | some cu =>
      base ++ [{ typ := "other", label := "Canonical change URL",
                 url := some cu, eventId := some e.id, source := some e.source,
                 timestamp := some e.timestamp }]
    | none => base
  let base :=
    metadataUrlKeys.foldl
      (fun acc key =>
        match readMetadataString e.metadata key with
        | some v =>
          if isHttpUrl v then
            acc ++ [{ typ := metadataLinkType e key, label := "Metadata " ++ key,
                      url := some v, eventId := some e.id, source := some e.source,
                      timestamp := some e.timestamp }]
          else acc
        | none => acc)
      base
  dedupeEvidence base

/-- `CHANGE_TYPE_SCORES` with its `|| 0.5` default. -/
def changeTypeScore (t : String) : ℚ :=
  if t = "deployment" then 1
  else if t = "config_change" then 0.9
  else if t = "feature_flag" then 0.8
  else if t = "db_migration" then 0.85
  else if t = "infra_modification" then 0.7
  else if t = "code_change" then 0.65
  else if t = "rollback" then 0.6
  else if t = "scaling" then 0.5
  else if t = "security_patch" then 0.4
  else 0.5

/-- `RISK_SCORES` with its `|| 0.2` default. -/
def riskScore (r : String) : ℚ :=
  if r = "critical" then 1
  else if r = "high" then 0.8
  else if r = "medium" then 0.5
  else if r = "low" then 0.2
  else 0.2

/-- `Math.round(value * 1000) / 1000` (three-decimal rounding; `Math.round`
is floor of the value plus one half). -/
def roundQ3 (x : ℚ) : ℚ :=
  ((⌊x * 1000 + 1 / 2⌋ : ℤ) : ℚ) / 1000

/-- `Math.round(value * 10) / 10`. -/
def roundQ1 (x : ℚ) : ℚ :=
  ((⌊x * 10 + 1 / 2⌋ : ℤ) : ℚ) / 10

/-- `Math.round` to an integer. -/
def roundInt (x : ℚ) : ℤ :=
  ⌊x + 1 / 2⌋

/-- The `confidence` breakdown attached to a correlation (`factors`
flattened). -/
structure ConfidenceBreakdown where
  overall : ℚ
  timeProximity : ℚ
  serviceAdjacency : ℚ
  changeRisk : ℚ
  changeType : ℚ
  environmentMatch : ℚ
  deriving DecidableEq, Repr

/-- A `ChangeCorrelation`. -/
structure ChangeCorrelation where
  changeEvent : ChangeEvent
  correlationScore : ℚ
  correlationReasons : List String
  whyRelevant : List String
  serviceOverlap : List String
  timeDeltaMinutes : ℚ
  confidence : ConfidenceBreakdown
  evidence : List EvidenceLink
  deriving DecidableEq, Repr

/-- `unique(values)`: drop falsy (empty) strings, then deduplicate keeping
first occurrences. -/
def uniqueNonEmpty (values : List String) : List String :=
  (values.filter (fun v => v ≠ "")).foldl setAdd []

/-- `ChangeCorrelator.expandServices`: direct services at hop 0 (set
unconditionally), then for each of the four bounded traversals
(up/down at `maxDepth` 1, then up/down at `maxDepth` 2) record every affected
service not already present at hop value 1 resp. 2. -/
def expandServices (g : ServiceGraph) (services : List String) :
    List (String × Nat) :=
  services.foldl
    (fun m svc =>
      let addAll (m : List (String × Nat)) (paths : List ImpactPath) (hop : Nat) :=
        paths.foldl
          (fun m p => if (mapGet m p.affected).isSome then m
                      else mapSet m p.affected hop) m
      let m := mapSet m svc 0
      let m := addAll m (g.getUpstreamImpact svc 1) 1
      let m := addAll m (g.getDownstreamImpact svc 1) 1
      let m := addAll m (g.getUpstreamImpact svc 2) 2
      addAll m (g.getDownstreamImpact svc 2) 2)
    []

/-- `ChangeCorrelator.findShortestPath`: best of `findPath(start, target)`
and `findPath(target, start)` over all start services, shorter paths
winning strictly. -/
def findShortestPath (g : ServiceGraph) (startServices : List String)
    (target : String) : Option (List String) :=
  startServices.foldl
    (fun best start =>
      let best :=
        match g.findPath start target with
        | some p =>
          match best with
          | some b => if p.length < b.length then some p else some b
          | none => some p
        | none => best
      match g.findPath target start with
      | some p =>
        match best with
        | some b => if p.length < b.length then some p else some b
        | none => some p
      | none => best)
    none

/-- `getEnvironmentScore`: 0.5 when the incident environment is unspecified,
1.0 on match (with a match reason), 0.2 on mismatch (with a mismatch
reason).  Returns the score and the reasons it appends. -/
def getEnvironmentScore (eventEnvironment : String)
    (incidentEnvironment : Option String) : ℚ × List String :=
  match incidentEnvironment with
  | none => (0.5, [])
  | some ie =>
    if eventEnvironment = ie then
      (1, ["Environment match: " ++ eventEnvironment])
    else
      (0.2, ["Environment mismatch (event=" ++ eventEnvironment ++
             ", incident=" ++ ie ++ ")"])

/-- The result record of `scoreChange`. -/
structure ScoredChange where
  score : ℚ
  reasons : List String
  serviceOverlap : List String
  timeDelta : ℚ
  confidence : ConfidenceBreakdown
  evidence : List EvidenceLink
  deriving Repr

/-- `ChangeCorrelator.scoreChange`.  `decay` abstracts
`Math.exp(-timeDeltaMinutes / 30)` (the only transcendental operation of the
core); all other arithmetic is exact. -/
def scoreChange (g : ServiceGraph) (decay : ℚ → ℚ) (change : ChangeEvent)
    (directServices : List String) (expanded : List (String × Nat))
    (incidentTs : Int) (incidentEnvironment : Option String) : ScoredChange :=
  let evidence0 := extractEventEvidence change
  let timeDeltaMinutes : ℚ := ((|incidentTs - change.timestamp| : ℤ) : ℚ) / 60000
  let timeScore := decay timeDeltaMinutes
  let reasons0 : List String :=
    if timeDeltaMinutes < 15 then
      ["Very recent change (" ++ toString (roundInt timeDeltaMinutes) ++
       "min from incident)"]
    else if timeDeltaMinutes < 60 then
      ["Recent change (" ++ toString (roundInt timeDeltaMinutes) ++
       "min from incident)"]
    else []
  let allChangeServices := change.service :: change.additionalServices
  let st :=
    allChangeServices.foldl
      (fun (st : ℚ × List String × List String × List EvidenceLink) svc =>
        let (serviceScore, overlap, reasons, evid) := st
        if svc ∈ directServices then
          (max serviceScore 1, overlap ++ [svc],
           reasons ++ ["Direct service match: " ++ svc], evid)
        else
          let hops := mapGet expanded svc
          let (serviceScore, overlap, reasons) :=
            match hops with
            | some 1 => (max serviceScore 0.7, overlap ++ [svc],
                         reasons ++ ["1-hop graph neighbor: " ++ svc])
            | some 2 => (max serviceScore 0.4, overlap ++ [svc],
                         reasons ++ ["2-hop graph neighbor: " ++ svc])
            | _ => (serviceScore, overlap, reasons)
          let evid :=
            match hops with
            | some h =>
              if h > 0 then
                match findShortestPath g directServices svc with
                | some p =>
                  evid ++ [{ typ := "graph_path",
                             label := "Graph adjacency path (" ++
                               toString (p.length - 1) ++ " hop): " ++
                               String.intercalate " -> " p,
                             source := some "service_graph",
                             eventId := some change.id }]
                | none => evid
              else evid
            | none => evid
          (serviceScore, overlap, reasons, evid))
      (0, [], reasons0, evidence0)
  let (serviceScore, serviceOverlap, reasons1, evidence1) := st
  let riskLevel := orElseStr change.blastRadiusRisk "low"
  let risk := riskScore riskLevel
  let reasons2 :=
    if riskLevel = "critical" ∨ riskLevel = "high" then
      reasons1 ++ [riskLevel ++ " blast-radius risk"]
    else reasons1
  let typeScore := changeTypeScore change.changeType
  let reasons3 :=
    if change.changeType = "deployment" ∨ change.changeType = "config_change" then
      reasons2 ++ ["High-impact change type: " ++ change.changeType]
    else reasons2
  let env := getEnvironmentScore change.environment incidentEnvironment
  let reasons4 := reasons3 ++ env.2
  let score := timeScore * 0.35 + serviceScore * 0.30 + risk * 0.15 +
    typeScore * 0.10 + env.1 * 0.10
  { score := score
    reasons := reasons4
    serviceOverlap := serviceOverlap
    timeDelta := timeDeltaMinutes
    confidence :=
      { overall := roundQ3 score
        timeProximity := roundQ3 timeScore
        serviceAdjacency := roundQ3 serviceScore
        changeRisk := roundQ3 risk
        changeType := roundQ3 typeScore
        environmentMatch := roundQ3 env.1 }
    evidence := evidence1 }

/-- Options of `correlateWithIncident`. -/
structure CorrelateOptions where
  windowMinutes : Option Int := none
  maxResults : Option Nat := none
  minScore : Option ℚ := none
  incidentEnvironment : Option String := none
  deriving Repr

/-- The candidate sourcing of `correlateWithIncident`: recent events of the
expanded service set, or a plain time-window query when the expansion is
empty (no graph). -/
def correlateCandidates (tbl : List ChangeEvent) (now : Int)
    (windowMinutes : Int) (expanded : List (String × Nat)) : List ChangeEvent :=
  if expanded.length = 0 then
    query tbl { since := some (now - windowMinutes * 60000), limit := some 200 }
  else
    getRecentForServices tbl now (expanded.map (fun p => p.1)) windowMinutes

/-- One step of `correlateWithIncident`'s scoring loop: score the change and
keep it (rounded, with deduplicated reasons/overlap and capped evidence)
when the score reaches `minScore`. -/
def correlateStep (g : ServiceGraph) (decay : ℚ → ℚ)
    (affectedServices : List String) (expanded : List (String × Nat))
    (incidentTime : Int) (incidentEnvironment : Option String) (minScore : ℚ)
    (acc : List ChangeCorrelation) (change : ChangeEvent) :
    List ChangeCorrelation :=
  let scored := scoreChange g decay change affectedServices expanded
    incidentTime incidentEnvironment
  if minScore ≤ scored.score then
    acc ++ [{ changeEvent := change
              correlationScore := roundQ3 scored.score
              correlationReasons := uniqueNonEmpty scored.reasons
              whyRelevant := uniqueNonEmpty scored.reasons
              serviceOverlap := uniqueNonEmpty scored.serviceOverlap
              timeDeltaMinutes := roundQ1 scored.timeDelta
              confidence := scored.confidence
              evidence := (dedupeEvidence scored.evidence).take 20 }]
  else acc

/-- `ChangeCorrelator.correlateWithIncident`: expand the affected services
through the graph, pull recent candidate events (plain time-window query
when the expansion is empty), score each, keep scores at or above
`minScore`, sort by score descending (stable) and truncate to
`maxResults`. -/
def correlateWithIncident (g : ServiceGraph) (tbl : List ChangeEvent)
    (decay : ℚ → ℚ) (now : Int) (affectedServices : List String)
    (incidentTime : Int) (opts : CorrelateOptions) : List ChangeCorrelation :=
  let windowMinutes := opts.windowMinutes.getD 120
  let maxResults := opts.maxResults.getD 20
  let minScore := opts.minScore.getD 0.1
  let expanded := expandServices g affectedServices
  let changes := correlateCandidates tbl now windowMinutes expanded
  let correlations :=
    changes.foldl
      (correlateStep g decay affectedServices expanded incidentTime
        opts.incidentEnvironment minScore)
      []
  (sortBy (fun a b => b.correlationScore ≤ a.correlationScore) correlations).take
    maxResults

/-- A `BlastRadiusPrediction`.  `impactPaths` keeps the traversal records
(the source re-labels the fields when emitting them); `highConfidenceCount`
and `possibleCount` flatten `confidenceSummary`. -/
structure BlastRadiusPrediction where
  directServices : List String
  downstreamServices : List String
  highConfidenceDependents : List String
  possibleDependents : List String
  criticalPathAffected : Bool
  riskLevel : String
  impactPaths : List ImpactPath
  highConfidenceCount : Nat
  possibleCount : Nat
  evidence : List EvidenceLink
  rationale : List String
  deriving DecidableEq, Repr

/-- `BlastRadiusAnalyzer.isHighConfidencePath`: confidence at least 0.75, and
an `inferred` edge on the path forces confidence at least 0.9. -/
def isHighConfidencePath (p : ImpactPath) : Bool :=
  if p.confidence < 0.75 then false
  else if "inferred" ∈ p.edgeSources ∧ p.confidence < 0.9 then false
  else true

/-- `BlastRadiusAnalyzer.computeRiskLevel`. -/
def computeRiskLevel (directCount downstreamCount : Nat) (criticalPath : Bool)
    (changeType : Option String) : String :=
  if criticalPath then "critical"
  else if downstreamCount > 10 ∨ directCount > 3 then "high"
  else if downstreamCount > 3 ∨ directCount > 1 then "medium"
  else if changeType = some "db_migration" ∧ directCount > 0 then "medium"
  else "low"

/-- Duplicate-dropping `dedupe` (identity on the already-distinct set
snapshots it is applied to). -/
def dedupeStr (values : List String) : List String :=
  values.foldl setAdd []

/-- `BlastRadiusAnalyzer.buildRationale`. -/
def buildRationale (targets direct downstream high possible : List String)
    (criticalPath : Bool) (riskLevel : String) (changeType : Option String) :
    List String :=
  ["Change targets " ++ toString targets.length ++ " service(s): " ++
   String.intercalate ", " targets]
  ++ (if direct ≠ [] then
        [toString direct.length ++ " direct dependent(s): " ++
         String.intercalate ", " direct]
      else [])
  ++ (if downstream ≠ [] then
        [toString downstream.length ++ " downstream service(s) in the impact path"]
      else [])
  ++ (if high ≠ [] then
        [toString high.length ++ " high-confidence dependent(s): " ++
         String.intercalate ", " (dedupeStr high)]
      else [])
  ++ (if possible ≠ [] then
        [toString possible.length ++ " possible dependent(s) via uncertain edges"]
      else [])
  ++ (if criticalPath then ["At least one critical dependency path is affected"]
      else [])
  ++ (if direct = [] ∧ downstream = [] then
        ["No known dependents in the service graph — isolated change"]
      else [])
  ++ (match optTruthy changeType with
      | some ct => ["Change type: " ++ ct]
      | none => [])
  ++ ["Overall risk level: " ++ riskLevel]

/-- The per-path accumulation state of `predict`: the four dependent
buckets (JS `Set`s in insertion order), the critical-path flag, the evidence
list and the collected impact paths. -/
structure PredictAcc where
  direct : List String := []
  downstream : List String := []
  high : List String := []
  possible : List String := []
  critFlag : Bool := false
  evidence : List EvidenceLink := []
  allPaths : List ImpactPath := []

/-- One step of `predict`'s inner path loop. -/
def predictStep (acc : PredictAcc) (p : ImpactPath) : PredictAcc :=
  { direct := if p.hops ≤ 2 then setAdd acc.direct p.affected else acc.direct
    downstream := if p.hops ≤ 2 then acc.downstream else setAdd acc.downstream p.affected
    high := if isHighConfidencePath p then setAdd acc.high p.affected else acc.high
    possible := if isHighConfidencePath p then acc.possible else setAdd acc.possible p.affected
    critFlag := acc.critFlag || (p.criticality = Crit.critical)
    evidence := acc.evidence ++
      [{ typ := "graph_path",
         label := "Impact path " ++ String.intercalate " -> " p.path,
         source := some "service_graph" }]
    allPaths := acc.allPaths ++ [p] }

/-- `BlastRadiusAnalyzer.predict(targetServices, changeType, { maxDepth })`:
accumulate over every target's upstream paths, remove the targets from every
bucket, remove direct dependents from the downstream bucket, then compute
risk and rationale. -/
def predict (g : ServiceGraph) (targetServices : List String)
    (changeType : Option String := none) (maxDepth : Nat := 3) :
    BlastRadiusPrediction :=
  let acc :=
    targetServices.foldl
      (fun acc svc => (g.getUpstreamImpact svc maxDepth).foldl predictStep acc)
      {}
  let direct := targetServices.foldl setDelete acc.direct
  let downstream := targetServices.foldl setDelete acc.downstream
  let high := targetServices.foldl setDelete acc.high
  let possible := targetServices.foldl setDelete acc.possible
  let downstream := direct.foldl setDelete downstream
  let riskLevel := computeRiskLevel direct.length downstream.length acc.critFlag
    changeType
  let rationale := buildRationale targetServices direct downstream high possible
    acc.critFlag riskLevel changeType
  { directServices := direct
    downstreamServices := downstream
    highConfidenceDependents := high
    possibleDependents := possible
    criticalPathAffected := acc.critFlag
    riskLevel := riskLevel
    impactPaths := acc.allPaths
    highConfidenceCount := high.length
    possibleCount := possible.length
    evidence := (dedupeEvidence acc.evidence).take 40
    rationale := rationale }

/-- Abstract actions of the batch-ingest route, in execution order. -/
inductive BatchAction where
  | txBegin
  | insertEv (i : Nat)
  | attachBlast (i : Nat)
  | scheduleNotify (i : Nat)
  | txCommit
  | deliverNotify (i : Nat)
  deriving DecidableEq, Repr

/-- The action trace of `POST /api/v1/events/batch` (`routes/batch.ts`) for a
batch whose events are duplicates (`true`) or fresh (`false`).  Derivation:
the handler body runs inside `store.transaction(fn)` — modelled from the
spec's "grouping primitive that executes the closure atomically" as a
BEGIN/COMMIT bracket around the closure — and for each non-duplicate event
executes, in source order, `store.insert`, the blast-radius
`store.update` attachment, and `webhookDispatcher.dispatch`.  `dispatch`
(`WebhookDispatcher`) only schedules delivery via `setImmediate`, so the
actual webhook deliveries run strictly after the synchronous handler — and
hence after commit — in scheduling order. -/
def batchTrace (dups : List Bool) : List BatchAction :=
  let enum := (List.range dups.length).zip dups
  [BatchAction.txBegin]
  ++ (enum.map (fun p =>
        if p.2 then ([] : List BatchAction)
        else [BatchAction.insertEv p.1, BatchAction.attachBlast p.1,
              BatchAction.scheduleNotify p.1])).flatten
  ++ [BatchAction.txCommit]
  ++ (enum.map (fun p =>
        if p.2 then ([] : List BatchAction)
        else [BatchAction.deliverNotify p.1])).flatten

/-- Consecutive pairs of a list (`[a, b, c] ↦ [(a, b), (b, c)]`). -/
def consecPairs : List α → List (α × α)
  | a :: b :: rest => (a, b) :: consecPairs (b :: rest)
  | _ => []

/-- The criticalities of the edges traversed along a path, recovered from
the edge map via the canonical id of each consecutive node pair (`keyOf`
orients the pair: upstream paths walk edges backwards). -/
def edgeCritsBy (g : ServiceGraph) (keyOf : String → String → String)
    (path : List String) : List Crit :=
  (consecPairs path).filterMap
    (fun ab => (mapGet g.edges (keyOf ab.1 ab.2)).map (fun e => e.criticality))

/-- Edge criticalities along an upstream path: the consecutive pair `(a, b)`
was traversed via the edge `b -> a`. -/
def edgeCritsUp (g : ServiceGraph) (path : List String) : List Crit :=
  edgeCritsBy g (fun a b => b ++ "->" ++ a) path

/-- Edge criticalities along a downstream path: the consecutive pair `(a, b)`
was traversed via the edge `a -> b`. -/
def edgeCritsDown (g : ServiceGraph) (path : List String) : List Crit :=
  edgeCritsBy g (fun a b => a ++ "->" ++ b) path

/-- The weakest-link aggregate of a criticality list: the traversal's fold of
`mergeCriticality` from the initial `'critical'`. -/
def weakestCrit (l : List Crit) : Crit :=
  l.foldl mergeCriticality Crit.critical

/-- The documented graph invariants (spec §3): map keys are canonical and
duplicate-free, stored edges are normalized (confidence clamped and present,
provenance tag and `lastSeen` filled in), and both adjacency indices list
exactly the incident edge ids of the edge set.  Every graph reachable from
`empty` via `addService`/`addDependency` satisfies this. -/
structure GraphWF (g : ServiceGraph) : Prop where
  nodesKey : ∀ p ∈ g.nodes, p.1 = p.2.id
  nodesNodup : (g.nodes.map Prod.fst).Nodup
  edgesKey : ∀ p ∈ g.edges, p.1 = p.2.source ++ "->" ++ p.2.target
  edgesNodup : (g.edges.map Prod.fst).Nodup
  edgesConf : ∀ p ∈ g.edges, (p.2.confidence).isSome = true ∧
    ∀ c ∈ p.2.confidence, 0 ≤ c ∧ c ≤ 1
  edgesTag : ∀ p ∈ g.edges, (p.2.edgeSource).isSome = true ∧
    ∀ s ∈ p.2.edgeSource, s ≠ ""
  edgesSeen : ∀ p ∈ g.edges, (p.2.lastSeen).isSome = true
  outConsistent : ∀ p ∈ g.outgoing,
    p.2 = (g.edges.filter (fun q => q.2.source = p.1)).map Prod.fst
  outCover : ∀ q ∈ g.edges, q.2.source ∈ g.outgoing.map Prod.fst
  outNodup : (g.outgoing.map Prod.fst).Nodup
  inConsistent : ∀ p ∈ g.incoming,
    p.2 = (g.edges.filter (fun q => q.2.target = p.1)).map Prod.fst
  inCover : ∀ q ∈ g.edges, q.2.target ∈ g.incoming.map Prod.fst
  inNodup : (g.incoming.map Prod.fst).Nodup

instance (g : ServiceGraph) : Decidable (GraphWF g) := by
  have h : GraphWF g ↔
      ((∀ p ∈ g.nodes, p.1 = p.2.id) ∧ (g.nodes.map Prod.fst).Nodup ∧
       (∀ p ∈ g.edges, p.1 = p.2.source ++ "->" ++ p.2.target) ∧
       (g.edges.map Prod.fst).Nodup ∧
       (∀ p ∈ g.edges, (p.2.confidence).isSome = true ∧
         ∀ c ∈ p.2.confidence, 0 ≤ c ∧ c ≤ 1) ∧
       (∀ p ∈ g.edges, (p.2.edgeSource).isSome = true ∧
         ∀ s ∈ p.2.edgeSource, s ≠ "") ∧
       (∀ p ∈ g.edges, (p.2.lastSeen).isSome = true) ∧
       (∀ p ∈ g.outgoing,
         p.2 = (g.edges.filter (fun q => q.2.source = p.1)).map Prod.fst) ∧
       (∀ q ∈ g.edges, q.2.source ∈ g.outgoing.map Prod.fst) ∧
       (g.outgoing.map Prod.fst).Nodup ∧
       (∀ p ∈ g.incoming,
         p.2 = (g.edges.filter (fun q => q.2.target = p.1)).map Prod.fst) ∧
       (∀ q ∈ g.edges, q.2.target ∈ g.incoming.map Prod.fst) ∧
       (g.incoming.map Prod.fst).Nodup) := by
    constructor
    · intro w
      exact ⟨w.nodesKey, w.nodesNodup, w.edgesKey, w.edgesNodup, w.edgesConf,
        w.edgesTag, w.edgesSeen, w.outConsistent, w.outCover, w.outNodup,
        w.inConsistent, w.inCover, w.inNodup⟩
    · intro ⟨a1, a2, a3, a4, a5, a6, a7, a8, a9, a10, a11, a12, a13⟩
      exact ⟨a1, a2, a3, a4, a5, a6, a7, a8, a9, a10, a11, a12, a13⟩
  exact decidable_of_iff _ h.symm

/-- Test-fixture node payload. -/
def fixNode (id : String) : ServiceNodeData :=
  { id := id, name := id, typ := "service" }

/-- Test-fixture edge payload. -/
def fixEdge (s t : String) (c : Crit := .critical) (conf : Option ℚ := none) :
    DependencyEdge :=
  { source := s, target := t, typ := "sync", criticality := c, confidence := conf }

/-- Two-node cycle `a -> t`, `t -> a`. -/
def graphCycle : ServiceGraph :=
  ((((ServiceGraph.empty.addService 0 (fixNode "t")).addService 0
    (fixNode "a")).addDependency 0 (fixEdge "a" "t")).addDependency 0
    (fixEdge "t" "a"))

/-- The spec's chain `A -> B -> C` (A depends on B, B depends on C). -/
def graphChain : ServiceGraph :=
  (((((ServiceGraph.empty.addService 0 (fixNode "A")).addService 0
    (fixNode "B")).addService 0 (fixNode "C")).addDependency 0
    (fixEdge "A" "B")).addDependency 0 (fixEdge "B" "C"))

/-- A target `t` with a full-confidence direct dependent `a` that is also
reachable through the low-confidence dependent `b` (`a -> t`,
`b -> t` at confidence 0.5, `a -> b`). -/
def graphBuckets : ServiceGraph :=
  ((((((ServiceGraph.empty.addService 0 (fixNode "t")).addService 0
    (fixNode "a")).addService 0 (fixNode "b")).addDependency 0
    (fixEdge "a" "t")).addDependency 0
    (fixEdge "b" "t" .critical (some 0.5))).addDependency 0 (fixEdge "a" "b"))

/-- Scenario 10 of the spec: `A <-(critical)- B <-(optional)- C`
(edges `B -> A` critical, `C -> B` optional). -/
def graphWeakest : ServiceGraph :=
  (((((ServiceGraph.empty.addService 0 (fixNode "A")).addService 0
    (fixNode "B")).addService 0 (fixNode "C")).addDependency 0
    (fixEdge "B" "A" .critical)).addDependency 0 (fixEdge "C" "B" .optionalC))

/-- Round-trip fixture: one node added at time 5 and one edge. -/
def graphRoundTrip : ServiceGraph :=
  (((ServiceGraph.empty.addService 5 (fixNode "a")).addService 5
    (fixNode "b")).addDependency 5 (fixEdge "a" "b" .degraded (some 0.7)))

/-- The C-event of scenario 6: a db migration on `C` at the incident time. -/
def eventOnC : NewEvent :=
  { service := "C", changeType := "db_migration", summary := "DB migration on C",
    timestamp := some 0 }

/-- Store holding only the C-event. -/
def tableC2 : List ChangeEvent := (insert [] 0 "ev-1" eventOnC).2

/-- An event whose timestamp sits exactly on the boundary between the two
windows of `getVelocityTrend("api", 60, 2)` taken at `now` = 7 200 000 ms
(the boundary is `now - 60min` = 3 600 000 ms). -/
def eventBoundary : NewEvent :=
  { service := "api", changeType := "deployment", summary := "boundary deploy",
    timestamp := some 3600000 }

/-- Store holding only the boundary event. -/
def tableC5 : List ChangeEvent := (insert [] 0 "e-b" eventBoundary).2

/-- First ingest payload carrying idempotency key `"k"`. -/
def newEvtKey1 : NewEvent :=
  { service := "api", changeType := "deployment", summary := "Deploy v1",
    idempotencyKey := some "k" }

/-- Retry payload: same key `"k"`, different summary. -/
def newEvtKey2 : NewEvent :=
  { service := "api", changeType := "deployment", summary := "Deploy v2 retry",
    idempotencyKey := some "k" }

/-- An insert payload with an empty `service`. -/
def newEvtEmptyService : NewEvent :=
  { service := "", changeType := "deployment", summary := "no service set" }

/-! ### Generic list lemmas -/

theorem mem_insertBy (le : α → α → Bool) (x a : α) (l : List α) :
    a ∈ insertBy le x l ↔ a = x ∨ a ∈ l := by
  induction l with
  | nil => simp [insertBy]
  | cons y ys ih =>
    by_cases h : le x y = true
    · simp [insertBy, h]
    · simp only [insertBy, h, if_neg, Bool.not_eq_true] at *
      simp [List.mem_cons, ih]
      tauto

theorem mem_sortBy (le : α → α → Bool) (a : α) (l : List α) :
    a ∈ sortBy le l ↔ a ∈ l := by
  induction l with
  | nil => simp [sortBy]
  | cons y ys ih => simp [sortBy, mem_insertBy, ih]

theorem find?_append_of_none {p : α → Bool} {l1 : List α} (l2 : List α)
    (h : l1.find? p = none) : (l1 ++ l2).find? p = l2.find? p := by
  induction l1 with
  | nil => simp
  | cons x xs ih =>
    rw [List.find?_cons] at h
    rcases hx : p x with hf | ht
    · rw [hx] at h
      simpa [List.find?_cons, hx] using ih h
    · rw [hx] at h
      simp at h

/-! ### Claim C4 — `insert` validation -/

/-- C4 counterexample: `insert` called with an empty `service` does not fail
with `InvariantViolation` — it stores exactly one event, verbatim.  (No
`InvariantViolation` error exists anywhere in the source; the non-empty
checks live in the HTTP routes' zod schemas, not the store.) -/
theorem claim4_counterexample :
    (insert [] 0 "id-0" newEvtEmptyService).2.length = 1 ∧
    (insert [] 0 "id-0" newEvtEmptyService).1.service = "" ∧
    (insert [] 0 "id-0" newEvtEmptyService).2 =
      [(insert [] 0 "id-0" newEvtEmptyService).1] := by
  decide

/-- C4 amended: `insert` performs no validation of
`service`/`summary`/`changeType` — for every partial event, empty fields
included, it appends exactly one row carrying those fields verbatim, and the
row is retrievable by its id (validation of non-emptiness happens in the
HTTP layer's schema, before the store is reached). -/
theorem claim4_amended (tbl : List ChangeEvent) (now : Int) (genId : String)
    (p : NewEvent) (hid : ∀ e ∈ tbl, e.id ≠ orElseStr p.id genId) :
    (insert tbl now genId p).2 = tbl ++ [(insert tbl now genId p).1] ∧
    (insert tbl now genId p).1.service = p.service ∧
    (insert tbl now genId p).1.changeType = p.changeType ∧
    (insert tbl now genId p).1.summary = p.summary ∧
    get (insert tbl now genId p).2 (insert tbl now genId p).1.id =
      some (insert tbl now genId p).1 := by
  refine ⟨rfl, rfl, rfl, rfl, ?_⟩
  unfold get
  have hnone : tbl.find? (fun e => e.id = (insert tbl now genId p).1.id) = none := by
    rw [List.find?_eq_none]
    intro e he
    have : e.id ≠ orElseStr p.id genId := hid e he
    simpa [insert] using this
  rw [show (insert tbl now genId p).2 = tbl ++ [(insert tbl now genId p).1] from rfl]
  rw [find?_append_of_none _ hnone]
  simp

/-- C4 amended witness at a concrete input. -/
theorem claim4_amended_witness :
    get (insert [] 0 "id-0" newEvtEmptyService).2
      (insert [] 0 "id-0" newEvtEmptyService).1.id =
    some (insert [] 0 "id-0" newEvtEmptyService).1 :=
  (claim4_amended [] 0 "id-0" newEvtEmptyService (by intro e he; cases he)).2.2.2.2

/-! ### Claim C1 — idempotent ingest -/

theorem getByIdempotencyKey_append_of_none {t1 : List ChangeEvent}
    (t2 : List ChangeEvent) (k : String) (h : getByIdempotencyKey t1 k = none) :
    getByIdempotencyKey (t1 ++ t2) k = getByIdempotencyKey t2 k :=
  find?_append_of_none t2 h

/-- C1: ingest is idempotent on the idempotency key.  When no stored event
carries key `k`, a first ingest with `k` inserts one event, and a second
ingest with the same key (any payload) returns the same id, reports a
duplicate, and leaves the store untouched; `getByIdempotencyKey` returns a
stored event with the requested key, or nil exactly when no stored event has
it. -/
theorem claim1_idempotent_ingest (tbl : List ChangeEvent) (k : String)
    (p1 p2 : NewEvent) (now1 now2 : Int) (g1 g2 : String)
    (hk1 : p1.idempotencyKey = some k) (hk2 : p2.idempotencyKey = some k)
    (hk : k ≠ "") (hfresh : getByIdempotencyKey tbl k = none) :
    ((ingestOne (ingestOne tbl now1 g1 p1).2.2 now2 g2 p2).1 =
        (ingestOne tbl now1 g1 p1).1 ∧
      (ingestOne (ingestOne tbl now1 g1 p1).2.2 now2 g2 p2).2.1 =
        IngestStatus.duplicate ∧
      (ingestOne (ingestOne tbl now1 g1 p1).2.2 now2 g2 p2).2.2 =
        (ingestOne tbl now1 g1 p1).2.2 ∧
      (ingestOne tbl now1 g1 p1).2.2.length = tbl.length + 1) ∧
    (∀ (tbl2 : List ChangeEvent) (k2 : String),
      (∀ e, getByIdempotencyKey tbl2 k2 = some e →
        e ∈ tbl2 ∧ e.idempotencyKey = some k2) ∧
      (getByIdempotencyKey tbl2 k2 = none ↔
        ∀ e ∈ tbl2, e.idempotencyKey ≠ some k2)) := by
  constructor
  · have h1 : ingestOne tbl now1 g1 p1 =
        ((insert tbl now1 g1 p1).1.id, IngestStatus.created,
          tbl ++ [(insert tbl now1 g1 p1).1]) := by
      unfold ingestOne
      rw [hk1]
      simp only [Option.getD_some, hfresh, decide_True, if_true]
      rw [ite_self]
      rfl
    have hkey : (insert tbl now1 g1 p1).1.idempotencyKey = some k := by
      simpa [insert] using hk1
    have h2 : getByIdempotencyKey (tbl ++ [(insert tbl now1 g1 p1).1]) k =
        some (insert tbl now1 g1 p1).1 := by
      rw [getByIdempotencyKey_append_of_none _ k hfresh]
      simp [getByIdempotencyKey, List.find?_cons, hkey]
    rw [h1]
    have h3 : ingestOne (tbl ++ [(insert tbl now1 g1 p1).1]) now2 g2 p2 =
        ((insert tbl now1 g1 p1).1.id, IngestStatus.duplicate,
          tbl ++ [(insert tbl now1 g1 p1).1]) := by
      unfold ingestOne
      rw [hk2]
      simp [hk, h2]
    rw [h3]
    simp
  · intro tbl2 k2
    constructor
    · intro e he
      have hm := List.mem_of_find?_eq_some he
      have hp := List.find?_some he
      simp at hp
      exact ⟨hm, hp⟩
    · unfold getByIdempotencyKey
      rw [List.find?_eq_none]
      simp

/-- C1 witness: two concrete ingests with key `"k"`. -/
theorem claim1_idempotent_ingest_witness :
    (ingestOne (ingestOne [] 0 "id-1" newEvtKey1).2.2 99 "id-2" newEvtKey2).1 =
      (ingestOne [] 0 "id-1" newEvtKey1).1 ∧
    (ingestOne (ingestOne [] 0 "id-1" newEvtKey1).2.2 99 "id-2" newEvtKey2).2.2 =
      (ingestOne [] 0 "id-1" newEvtKey1).2.2 := by
  have h := claim1_idempotent_ingest [] "k" newEvtKey1 newEvtKey2 0 99 "id-1" "id-2"
    rfl rfl (by decide) rfl
  exact ⟨h.1.1, h.1.2.2.1⟩

/-! ### Claim C3 — batch transaction ordering -/

/-- C3 counterexample: in a one-event batch the blast-radius attachment runs
inside the transaction, before the commit — not after it. -/
theorem claim3_counterexample :
    batchTrace [false] =
      [BatchAction.txBegin, BatchAction.insertEv 0, BatchAction.attachBlast 0,
       BatchAction.scheduleNotify 0, BatchAction.txCommit,
       BatchAction.deliverNotify 0] ∧
    (batchTrace [false]).indexOf (BatchAction.attachBlast 0) <
      (batchTrace [false]).indexOf BatchAction.txCommit := by
  decide

/-- C3 amended: batch ingest brackets the whole per-event work — insert,
blast-radius attachment and webhook dispatch scheduling — between BEGIN and
COMMIT of a single transaction; only the actual webhook deliveries (deferred
by the dispatcher's `setImmediate`) run after the commit. -/
theorem claim3_amended (dups : List Bool) :
    ∃ body tail,
      batchTrace dups =
        [BatchAction.txBegin] ++ body ++ [BatchAction.txCommit] ++ tail ∧
      (∀ a ∈ body, ∃ i, a = BatchAction.insertEv i ∨ a = BatchAction.attachBlast i ∨
        a = BatchAction.scheduleNotify i) ∧
      (∀ a ∈ tail, ∃ i, a = BatchAction.deliverNotify i) ∧
      (∀ i, ∀ h : i < dups.length, dups[i] = false →
        BatchAction.insertEv i ∈ body ∧ BatchAction.attachBlast i ∈ body ∧
        BatchAction.scheduleNotify i ∈ body ∧
        BatchAction.deliverNotify i ∈ tail) := by
  refine ⟨_, _, rfl, ?_, ?_, ?_⟩
  · intro a ha
    rw [List.mem_flatten] at ha
    obtain ⟨l, hl, hal⟩ := ha
    rw [List.mem_map] at hl
    obtain ⟨q, _, rfl⟩ := hl
    rcases hq : q.2 with hf | ht
    · rw [hq] at hal
      simp at hal
      rcases hal with h | h | h
      · exact ⟨q.1, Or.inl h⟩
      · exact ⟨q.1, Or.inr (Or.inl h)⟩
      · exact ⟨q.1, Or.inr (Or.inr h)⟩
    · rw [hq] at hal
      simp at hal
  · intro a ha
    rw [List.mem_flatten] at ha
    obtain ⟨l, hl, hal⟩ := ha
    rw [List.mem_map] at hl
    obtain ⟨q, _, rfl⟩ := hl
    rcases hq : q.2 with hf | ht
    · rw [hq] at hal
      simp at hal
      exact ⟨q.1, hal⟩
    · rw [hq] at hal
      simp at hal
  · intro i h hfalse
    have hlen : i < ((List.range dups.length).zip dups).length := by
      simpa [List.length_zip] using h
    have hmem : ((List.range dups.length).zip dups)[i] ∈
        (List.range dups.length).zip dups := List.getElem_mem hlen
    rw [List.getElem_zip, List.getElem_range, hfalse] at hmem
    refine ⟨?_, ?_, ?_, ?_⟩
    · rw [List.mem_flatten]
      exact ⟨[BatchAction.insertEv i, BatchAction.attachBlast i,
        BatchAction.scheduleNotify i],
        List.mem_map.mpr ⟨(i, false), hmem, by simp⟩, by simp⟩
    · rw [List.mem_flatten]
      exact ⟨[BatchAction.insertEv i, BatchAction.attachBlast i,
        BatchAction.scheduleNotify i],
        List.mem_map.mpr ⟨(i, false), hmem, by simp⟩, by simp⟩
    · rw [List.mem_flatten]
      exact ⟨[BatchAction.insertEv i, BatchAction.attachBlast i,
        BatchAction.scheduleNotify i],
        List.mem_map.mpr ⟨(i, false), hmem, by simp⟩, by simp⟩
    · rw [List.mem_flatten]
      exact ⟨[BatchAction.deliverNotify i],
        List.mem_map.mpr ⟨(i, false), hmem, by simp⟩, by simp⟩

/-- C3 amended witness at a concrete one-event batch. -/
theorem claim3_amended_witness :
    ∃ body tail, batchTrace [false] =
      [BatchAction.txBegin] ++ body ++ [BatchAction.txCommit] ++ tail := by
  obtain ⟨b, t, h, _⟩ := claim3_amended [false]
  exact ⟨b, t, h⟩

/-! ### Counterexamples computed on concrete fixtures -/

/-- C5 counterexample: a single event lying exactly on the boundary between
the two windows of `getVelocityTrend("api", 60, 2)` is counted in *both*
windows (each `changeCount` is 1, so the sum is 2 for one stored event):
both window bounds are inclusive in the SQL (`>= start AND <= end`), so a
boundary event is not counted "exactly once, in the later window". -/
theorem claim5_counterexample :
    tableC5.length = 1 ∧
    (getVelocityTrend tableC5 7200000 "api" 60 2).map
      (fun m => (m.windowStart, m.windowEnd, m.changeCount)) =
      [(0, 3600000, 1), (3600000, 7200000, 1)] := by
  decide

/-- C6 counterexample: on the two-node cycle `a -> t`, `t -> a`, the upstream
traversal from `t` emits the path `[t, a, t]`, which revisits `t` — the
visited set only stops *expansion* at a visited node, not the emission of
the path that reaches it. -/
theorem claim6_counterexample :
    (ServiceGraph.getUpstreamImpact graphCycle "t" 5).map (fun p => p.path) =
      [["t", "a"], ["t", "a", "t"]] ∧
    ∃ p ∈ ServiceGraph.getUpstreamImpact graphCycle "t" 5, ¬ p.path.Nodup := by
  decide

/-- C7 counterexample: in `graphBuckets` the service `a` is reachable from
target `t` both via a confidence-1 direct edge (a high-confidence path) and
via the confidence-0.5 node `b` (a low-confidence path), so `predict`
puts `a` in *both* `highConfidenceDependents` and `possibleDependents` —
the buckets are not disjoint and `a` is not in "exactly one" of them. -/
theorem claim7_counterexample :
    "a" ∈ (predict graphBuckets ["t"]).highConfidenceDependents ∧
    "a" ∈ (predict graphBuckets ["t"]).possibleDependents := by
  with_unfolding_all decide

/-- C9 counterexample: restoring a serialized graph at a later time does not
reproduce the same nodes — `fromJSON` re-adds nodes through `addService`,
which restamps `createdAt`/`updatedAt` with the restoration time, discarding
the serialized dates. -/
theorem claim9_counterexample :
    (ServiceGraph.fromJSON (ServiceGraph.toJSON graphRoundTrip) 9).nodes ≠
      graphRoundTrip.nodes := by
  decide

/-- C2 counterexample: for the chain `A -> B -> C` with the db-migration
event on `C` at the incident time, the correlator assigns `C` hop distance 1
(not 2): `expandServices` calls the traversals with `maxDepth` 1, and the
depth limit is checked on node *entry*, so the "1-hop" expansion already
contains nodes two edges away.  The returned correlation for the `C` event
has `serviceOverlap = ["C"]` but its reason tag is
`"1-hop graph neighbor: C"` — no "2-hop graph neighbor" tag appears.  The
time-decay factor `Math.exp(-Δ/30)` is evaluated only at Δ = 0 in this
scenario, where it is exactly 1, so it is instantiated with the constant-1
function. -/
theorem claim2_counterexample :
    mapGet (expandServices graphChain ["A"]) "C" = some 1 ∧
    (correlateWithIncident graphChain tableC2 (fun _ => 1) 0 ["A"] 0
      { windowMinutes := some 60 }).map
      (fun c => (c.changeEvent.service, c.serviceOverlap, c.correlationReasons)) =
      [("C", ["C"],
        ["Very recent change (0min from incident)", "1-hop graph neighbor: C"])] := by
  with_unfolding_all decide

/-! ### Association-list and criticality lemmas -/

theorem mapGet_mem {α : Type} {m : List (String × α)} {k : String} {v : α}
    (h : mapGet m k = some v) : (k, v) ∈ m := by
  unfold mapGet at h
  rcases hf : m.find? (fun p => p.1 = k) with hnone | pr
  · rw [hf] at h; cases h
  · rw [hf] at h
    obtain rfl : pr.2 = v := by cases h; rfl
    have hm := List.mem_of_find?_eq_some hf
    have hp := List.find?_some hf
    simp at hp
    rw [← hp]
    simpa using hm

theorem mapGet_of_nodup_mem {α : Type} {m : List (String × α)} {k : String}
    {v : α} (hnd : (m.map Prod.fst).Nodup) (h : (k, v) ∈ m) :
    mapGet m k = some v := by
  induction m with
  | nil => cases h
  | cons p rest ih =>
    rw [List.mem_cons] at h
    rcases h with h | h
    · rw [← h]
      simp [mapGet, List.find?_cons]
    · have hk : p.1 ≠ k := by
        intro he
        have : k ∈ rest.map Prod.fst := by
          exact List.mem_map.mpr ⟨(k, v), h, rfl⟩
        rw [List.map_cons, List.nodup_cons] at hnd
        rw [he] at hnd
        exact hnd.1 this
      have := ih (by rw [List.map_cons, List.nodup_cons] at hnd; exact hnd.2) h
      simpa [mapGet, List.find?_cons, hk] using this

theorem critOrder_mergeCriticality (a b : Crit) :
    critOrder (mergeCriticality a b) = max (critOrder a) (critOrder b) := by
  cases a <;> cases b <;> decide

theorem mergeCriticality_eq_or (a b : Crit) :
    mergeCriticality a b = a ∨ mergeCriticality a b = b := by
  cases a <;> cases b <;> simp [mergeCriticality, critOrder]

theorem mergeCriticality_critical_left (b : Crit) :
    mergeCriticality Crit.critical b = b := by
  cases b <;> decide

theorem weakestCrit_append (l : List Crit) (c : Crit) :
    weakestCrit (l ++ [c]) = mergeCriticality (weakestCrit l) c := by
  simp [weakestCrit, List.foldl_append]

theorem foldl_merge_mem (a : Crit) (xs : List Crit) :
    xs.foldl mergeCriticality a ∈ a :: xs := by
  induction xs generalizing a with
  | nil => simp
  | cons y ys ih =>
    rw [List.foldl_cons]
    have him := List.mem_cons.mp (ih (mergeCriticality a y))
    rcases mergeCriticality_eq_or a y with h | h
    · rcases him with hm | hm
      · rw [hm, h]; exact List.mem_cons_self _ _
      · exact List.mem_cons_of_mem _ (List.mem_cons_of_mem _ hm)
    · rcases him with hm | hm
      · rw [hm, h]
        exact List.mem_cons_of_mem _ (List.mem_cons_self _ _)
      · exact List.mem_cons_of_mem _ (List.mem_cons_of_mem _ hm)

theorem foldl_merge_ge (a : Crit) (xs : List Crit) :
    critOrder a ≤ critOrder (xs.foldl mergeCriticality a) ∧
    ∀ c ∈ xs, critOrder c ≤ critOrder (xs.foldl mergeCriticality a) := by
  induction xs generalizing a with
  | nil => simp
  | cons y ys ih =>
    rw [List.foldl_cons]
    obtain ⟨h1, h2⟩ := ih (mergeCriticality a y)
    have hm : critOrder (mergeCriticality a y) = max (critOrder a) (critOrder y) :=
      critOrder_mergeCriticality a y
    constructor
    · exact le_trans (by rw [hm]; exact le_max_left _ _) h1
    · intro c hc
      rw [List.mem_cons] at hc
      rcases hc with hc | hc
      · rw [hc]
        exact le_trans (by rw [hm]; exact le_max_right _ _) h1
      · exact h2 c hc

theorem weakestCrit_mem (l : List Crit) (h : l ≠ []) : weakestCrit l ∈ l := by
  cases l with
  | nil => cases h rfl
  | cons x xs =>
    unfold weakestCrit
    rw [List.foldl_cons, mergeCriticality_critical_left]
    exact foldl_merge_mem x xs

theorem weakestCrit_ge (l : List Crit) : ∀ c ∈ l, critOrder c ≤ critOrder (weakestCrit l) :=
  (foldl_merge_ge Crit.critical l).2

theorem consecPairs_append (l : List α) (c x : α) :
    consecPairs (l ++ [c, x]) = consecPairs (l ++ [c]) ++ [(c, x)] := by
  induction l with
  | nil => rfl
  | cons a l ih =>
    cases l with
    | nil => rfl
    | cons b l2 =>
      calc consecPairs ((a :: b :: l2) ++ [c, x])
          = (a, b) :: consecPairs ((b :: l2) ++ [c, x]) := rfl
        _ = (a, b) :: (consecPairs ((b :: l2) ++ [c]) ++ [(c, x)]) := by rw [ih]
        _ = ((a, b) :: consecPairs ((b :: l2) ++ [c])) ++ [(c, x)] := rfl
        _ = consecPairs ((a :: b :: l2) ++ [c]) ++ [(c, x)] := rfl

theorem eq_dropLast_append_of_getLast? (l : List α) (c : α)
    (h : l.getLast? = some c) : l = l.dropLast ++ [c] := by
  have hne : l ≠ [] := by
    intro he
    rw [he] at h
    cases h
  have hl := List.dropLast_append_getLast hne
  have hc : l.getLast hne = c := by
    rw [List.getLast?_eq_getLast l hne] at h
    cases h
    rfl
  rw [← hc]
  exact hl.symm

theorem edgeCritsBy_append (g : ServiceGraph) (keyOf : String → String → String)
    (path : List String) (c x : String) (h : path.getLast? = some c) :
    edgeCritsBy g keyOf (path ++ [x]) =
      edgeCritsBy g keyOf path ++
        ((mapGet g.edges (keyOf c x)).map (fun e => e.criticality)).toList := by
  have hp := eq_dropLast_append_of_getLast? path c h
  unfold edgeCritsBy
  conv_lhs => rw [hp]
  conv_rhs => rw [hp]
  rw [List.append_assoc]
  have : ([c] ++ [x] : List String) = [c, x] := rfl
  rw [this, consecPairs_append, List.filterMap_append]
  cases hm : mapGet g.edges (keyOf c x) <;> simp [hm]

/-! ### Traversal unfolding and invariants -/

theorem goEdges_cons_none (g : ServiceGraph) (sid : String)
    (nxt : DependencyEdge → String) (child) (eid : String) (rest : List String)
    (pth : List String) (cr : Crit) (cf : ℚ) (sr vs : List String)
    (hm : mapGet g.edges eid = none) :
    goEdges g sid nxt child (eid :: rest) pth cr cf sr vs =
      goEdges g sid nxt child rest pth cr cf sr vs := by
  simp only [goEdges, hm]

theorem goEdges_cons_some (g : ServiceGraph) (sid : String)
    (nxt : DependencyEdge → String) (child) (eid : String) (rest : List String)
    (pth : List String) (cr : Crit) (cf : ℚ) (sr vs : List String)
    (e : DependencyEdge) (hm : mapGet g.edges eid = some e) :
    goEdges g sid nxt child (eid :: rest) pth cr cf sr vs =
      (({ source := sid, affected := nxt e, path := pth ++ [nxt e],
          hops := (pth ++ [nxt e]).length,
          criticality := mergeCriticality cr e.criticality,
          confidence := min cf (normalizeConfidence e.confidence),
          edgeSources := setAdd sr
            (orElseStr e.edgeSource (inferEdgeSource e.metadataSource)) } : ImpactPath) ::
        ((child (nxt e) (pth ++ [nxt e]) (mergeCriticality cr e.criticality)
            (min cf (normalizeConfidence e.confidence))
            (setAdd sr (orElseStr e.edgeSource (inferEdgeSource e.metadataSource)))
            vs).1 ++
          (goEdges g sid nxt child rest pth cr cf sr
            (child (nxt e) (pth ++ [nxt e]) (mergeCriticality cr e.criticality)
              (min cf (normalizeConfidence e.confidence))
              (setAdd sr (orElseStr e.edgeSource (inferEdgeSource e.metadataSource)))
              vs).2).1),
        (goEdges g sid nxt child rest pth cr cf sr
          (child (nxt e) (pth ++ [nxt e]) (mergeCriticality cr e.criticality)
            (min cf (normalizeConfidence e.confidence))
            (setAdd sr (orElseStr e.edgeSource (inferEdgeSource e.metadataSource)))
            vs).2).2) := by
  simp only [goEdges, hm]

theorem goEdges_mono (g : ServiceGraph) (sid : String)
    (nxt : DependencyEdge → String) (child)
    (hcm : ∀ cur pth cr cf sr vs, ∀ x ∈ vs, x ∈ (child cur pth cr cf sr vs).2) :
    ∀ (eids pth : List String) (cr : Crit) (cf : ℚ) (sr vs : List String),
      ∀ x ∈ vs, x ∈ (goEdges g sid nxt child eids pth cr cf sr vs).2 := by
  intro eids
  induction eids with
  | nil =>
    intro pth cr cf sr vs x hx
    simpa [goEdges] using hx
  | cons eid rest ih =>
    intro pth cr cf sr vs x hx
    rcases hm : mapGet g.edges eid with _ | e
    · rw [goEdges_cons_none g sid nxt child eid rest pth cr cf sr vs hm]
      exact ih pth cr cf sr vs x hx
    · rw [goEdges_cons_some g sid nxt child eid rest pth cr cf sr vs e hm]
      exact ih pth cr cf sr _ x (hcm _ _ _ _ _ _ x hx)

theorem traverseUp_mono (g : ServiceGraph) (sid : String) :
    ∀ (fuel : Nat) (cur : String) (pth : List String) (cr : Crit) (cf : ℚ)
      (sr vs : List String), ∀ x ∈ vs,
      x ∈ (traverseUp g sid fuel cur pth cr cf sr vs).2 := by
  intro fuel
  induction fuel with
  | zero => intro cur pth cr cf sr vs x hx; simpa [traverseUp] using hx
  | succ fuel ih =>
    intro cur pth cr cf sr vs x hx
    rw [traverseUp]
    by_cases hv : cur ∈ vs
    · simpa [hv] using hx
    · simp only [hv, if_false, if_neg, not_false_iff]
      exact goEdges_mono g sid (fun e => e.source) (traverseUp g sid fuel)
        (fun c p a b s v => ih c p a b s v) _ _ _ _ _ _ x
        (List.mem_append_left _ hx)

theorem traverseDown_mono (g : ServiceGraph) (sid : String) :
    ∀ (fuel : Nat) (cur : String) (pth : List String) (cr : Crit) (cf : ℚ)
      (sr vs : List String), ∀ x ∈ vs,
      x ∈ (traverseDown g sid fuel cur pth cr cf sr vs).2 := by
  intro fuel
  induction fuel with
  | zero => intro cur pth cr cf sr vs x hx; simpa [traverseDown] using hx
  | succ fuel ih =>
    intro cur pth cr cf sr vs x hx
    rw [traverseDown]
    by_cases hv : cur ∈ vs
    · simpa [hv] using hx
    · simp only [hv, if_false, if_neg, not_false_iff]
      exact goEdges_mono g sid (fun e => e.target) (traverseDown g sid fuel)
        (fun c p a b s v => ih c p a b s v) _ _ _ _ _ _ x
        (List.mem_append_left _ hx)

theorem head?_append_of_ne_nil (l l2 : List α) (h : l ≠ []) :
    (l ++ l2).head? = l.head? := by
  cases l with
  | nil => cases h rfl
  | cons a t => rfl

theorem goEdges_struct (g : ServiceGraph) (sid : String)
    (nxt : DependencyEdge → String) (child) (b : Nat)
    (hcm : ∀ cur pth cr cf sr vs, ∀ x ∈ vs, x ∈ (child cur pth cr cf sr vs).2)
    (hchild : ∀ cur (pth : List String) cr cf sr vs,
      pth.getLast? = some cur →
      (∀ x ∈ pth.dropLast, x ∈ vs) →
      pth.dropLast.Nodup →
      ∀ p ∈ (child cur pth cr cf sr vs).1,
        p.path.dropLast.Nodup ∧ p.path.length ≤ pth.length + b ∧
        p.hops = p.path.length ∧ p.path.getLast? = some p.affected ∧
        p.source = sid ∧ p.path.head? = pth.head? ∧ 2 ≤ p.path.length) :
    ∀ (eids : List String) (pth : List String) (cr : Crit) (cf : ℚ)
      (sr vs : List String) (current : String),
      pth.getLast? = some current →
      (∀ x ∈ pth, x ∈ vs) →
      pth.Nodup →
      ∀ p ∈ (goEdges g sid nxt child eids pth cr cf sr vs).1,
        p.path.dropLast.Nodup ∧ p.path.length ≤ pth.length + (b + 1) ∧
        p.hops = p.path.length ∧ p.path.getLast? = some p.affected ∧
        p.source = sid ∧ p.path.head? = pth.head? ∧ 2 ≤ p.path.length := by
  intro eids
  induction eids with
  | nil =>
    intro pth cr cf sr vs current hlast hsub hnd p hp
    simp [goEdges] at hp
  | cons eid rest ih =>
    intro pth cr cf sr vs current hlast hsub hnd p hp
    have hpne : pth ≠ [] := by
      intro he; rw [he] at hlast; cases hlast
    rcases hm : mapGet g.edges eid with _ | e
    · rw [goEdges_cons_none g sid nxt child eid rest pth cr cf sr vs hm] at hp
      exact ih pth cr cf sr vs current hlast hsub hnd p hp
    · rw [goEdges_cons_some g sid nxt child eid rest pth cr cf sr vs e hm] at hp
      rw [List.mem_cons] at hp
      rcases hp with hp | hp
      · subst hp
        refine ⟨by simpa [List.dropLast_concat] using hnd, ?_, rfl, ?_, rfl, ?_, ?_⟩
        · simp
        · simp
        · exact head?_append_of_ne_nil pth _ hpne
        · have : 1 ≤ pth.length := List.length_pos.mpr hpne
          simp only [List.length_append, List.length_singleton]
          omega
      · rw [List.mem_append] at hp
        rcases hp with hp | hp
        · have hc := hchild (nxt e) (pth ++ [nxt e])
            (mergeCriticality cr e.criticality)
            (min cf (normalizeConfidence e.confidence))
            (setAdd sr (orElseStr e.edgeSource (inferEdgeSource e.metadataSource)))
            vs (by simp) (by simpa [List.dropLast_concat] using hsub)
            (by simpa [List.dropLast_concat] using hnd) p hp
          obtain ⟨c1, c2, c3, c4, c5, c6, c7⟩ := hc
          refine ⟨c1, ?_, c3, c4, c5, ?_, c7⟩
          · simp only [List.length_append, List.length_singleton] at c2
            omega
          · rw [c6]
            exact head?_append_of_ne_nil pth _ hpne
        · exact ih pth cr cf sr _ current hlast
            (fun x hx => hcm _ _ _ _ _ _ x (hsub x hx)) hnd p hp

theorem traverseUp_struct (g : ServiceGraph) (sid : String) :
    ∀ (fuel : Nat) (cur : String) (pth : List String) (cr : Crit) (cf : ℚ)
      (sr vs : List String),
      pth.getLast? = some cur →
      (∀ x ∈ pth.dropLast, x ∈ vs) →
      pth.dropLast.Nodup →
      ∀ p ∈ (traverseUp g sid fuel cur pth cr cf sr vs).1,
        p.path.dropLast.Nodup ∧ p.path.length ≤ pth.length + fuel ∧
        p.hops = p.path.length ∧ p.path.getLast? = some p.affected ∧
        p.source = sid ∧ p.path.head? = pth.head? ∧ 2 ≤ p.path.length := by
  intro fuel
  induction fuel with
  | zero =>
    intro cur pth cr cf sr vs hlast hsub hnd p hp
    simp [traverseUp] at hp
  | succ fuel ih =>
    intro cur pth cr cf sr vs hlast hsub hnd p hp
    rw [traverseUp] at hp
    by_cases hv : cur ∈ vs
    · simp [hv] at hp
    · simp only [hv, if_neg, not_false_iff] at hp
      have hdl := eq_dropLast_append_of_getLast? pth cur hlast
      have hcd : cur ∉ pth.dropLast := fun hc => hv (hsub cur hc)
      have hnd2 : pth.Nodup := by
        rw [hdl, List.nodup_append]
        exact ⟨hnd, List.nodup_singleton cur,
          fun x hx hy => by
            rw [List.mem_singleton] at hy
            rw [hy] at hx
            exact hcd hx⟩
      have hsub2 : ∀ x ∈ pth, x ∈ vs ++ [cur] := by
        intro x hx
        rw [hdl, List.mem_append] at hx
        rcases hx with hx | hx
        · exact List.mem_append_left _ (hsub x hx)
        · exact List.mem_append_right _ hx
      have hg := goEdges_struct g sid (fun e => e.source) (traverseUp g sid fuel)
        fuel (fun c q a d s v => traverseUp_mono g sid fuel c q a d s v)
        (fun c q a d s v => ih c q a d s v)
        (mapGetD g.incoming cur []) pth cr cf sr (vs ++ [cur]) cur
        hlast hsub2 hnd2 p hp
      obtain ⟨c1, c2, c3, c4, c5, c6, c7⟩ := hg
      exact ⟨c1, by omega, c3, c4, c5, c6, c7⟩

theorem traverseDown_struct (g : ServiceGraph) (sid : String) :
    ∀ (fuel : Nat) (cur : String) (pth : List String) (cr : Crit) (cf : ℚ)
      (sr vs : List String),
      pth.getLast? = some cur →
      (∀ x ∈ pth.dropLast, x ∈ vs) →
      pth.dropLast.Nodup →
      ∀ p ∈ (traverseDown g sid fuel cur pth cr cf sr vs).1,
        p.path.dropLast.Nodup ∧ p.path.length ≤ pth.length + fuel ∧
        p.hops = p.path.length ∧ p.path.getLast? = some p.affected ∧
        p.source = sid ∧ p.path.head? = pth.head? ∧ 2 ≤ p.path.length := by
  intro fuel
  induction fuel with
  | zero =>
    intro cur pth cr cf sr vs hlast hsub hnd p hp
    simp [traverseDown] at hp
  | succ fuel ih =>
    intro cur pth cr cf sr vs hlast hsub hnd p hp
    rw [traverseDown] at hp
    by_cases hv : cur ∈ vs
    · simp [hv] at hp
    · simp only [hv, if_neg, not_false_iff] at hp
      have hdl := eq_dropLast_append_of_getLast? pth cur hlast
      have hcd : cur ∉ pth.dropLast := fun hc => hv (hsub cur hc)
      have hnd2 : pth.Nodup := by
        rw [hdl, List.nodup_append]
        exact ⟨hnd, List.nodup_singleton cur,
          fun x hx hy => by
            rw [List.mem_singleton] at hy
            rw [hy] at hx
            exact hcd hx⟩
      have hsub2 : ∀ x ∈ pth, x ∈ vs ++ [cur] := by
        intro x hx
        rw [hdl, List.mem_append] at hx
        rcases hx with hx | hx
        · exact List.mem_append_left _ (hsub x hx)
        · exact List.mem_append_right _ hx
      have hg := goEdges_struct g sid (fun e => e.target) (traverseDown g sid fuel)
        fuel (fun c q a d s v => traverseDown_mono g sid fuel c q a d s v)
        (fun c q a d s v => ih c q a d s v)
        (mapGetD g.outgoing cur []) pth cr cf sr (vs ++ [cur]) cur
        hlast hsub2 hnd2 p hp
      obtain ⟨c1, c2, c3, c4, c5, c6, c7⟩ := hg
      exact ⟨c1, by omega, c3, c4, c5, c6, c7⟩

theorem goEdges_crit (g : ServiceGraph) (sid : String)
    (nxt : DependencyEdge → String) (keyOf : String → String → String) (child)
    (hchild : ∀ cur (pth : List String) cr cf sr vs,
      pth.getLast? = some cur →
      cr = weakestCrit (edgeCritsBy g keyOf pth) →
      (edgeCritsBy g keyOf pth).length + 1 = pth.length →
      ∀ p ∈ (child cur pth cr cf sr vs).1,
        p.criticality = weakestCrit (edgeCritsBy g keyOf p.path) ∧
        (edgeCritsBy g keyOf p.path).length + 1 = p.path.length) :
    ∀ (eids : List String) (pth : List String) (cr : Crit) (cf : ℚ)
      (sr vs : List String) (current : String),
      (∀ eid ∈ eids, ∀ e, mapGet g.edges eid = some e →
        eid = keyOf current (nxt e)) →
      pth.getLast? = some current →
      cr = weakestCrit (edgeCritsBy g keyOf pth) →
      (edgeCritsBy g keyOf pth).length + 1 = pth.length →
      ∀ p ∈ (goEdges g sid nxt child eids pth cr cf sr vs).1,
        p.criticality = weakestCrit (edgeCritsBy g keyOf p.path) ∧
        (edgeCritsBy g keyOf p.path).length + 1 = p.path.length := by
  intro eids
  induction eids with
  | nil =>
    intro pth cr cf sr vs current hk hlast hcr hln p hp
    simp [goEdges] at hp
  | cons eid rest ih =>
    intro pth cr cf sr vs current hk hlast hcr hln p hp
    rcases hm : mapGet g.edges eid with _ | e
    · rw [goEdges_cons_none g sid nxt child eid rest pth cr cf sr vs hm] at hp
      exact ih pth cr cf sr vs current
        (fun eid2 h2 => hk eid2 (List.mem_cons_of_mem _ h2)) hlast hcr hln p hp
    · have hkey : eid = keyOf current (nxt e) :=
        hk eid (List.mem_cons_self _ _) e hm
      have ha : edgeCritsBy g keyOf (pth ++ [nxt e]) =
          edgeCritsBy g keyOf pth ++ [e.criticality] := by
        rw [edgeCritsBy_append g keyOf pth current (nxt e) hlast, ← hkey, hm]
        rfl
      have hcr2 : mergeCriticality cr e.criticality =
          weakestCrit (edgeCritsBy g keyOf (pth ++ [nxt e])) := by
        rw [ha, weakestCrit_append, hcr]
      have hln2 : (edgeCritsBy g keyOf (pth ++ [nxt e])).length + 1 =
          (pth ++ [nxt e]).length := by
        rw [ha]
        simp only [List.length_append, List.length_singleton]
        omega
      rw [goEdges_cons_some g sid nxt child eid rest pth cr cf sr vs e hm] at hp
      rw [List.mem_cons] at hp
      rcases hp with hp | hp
      · subst hp
        exact ⟨hcr2, hln2⟩
      · rw [List.mem_append] at hp
        rcases hp with hp | hp
        · exact hchild (nxt e) (pth ++ [nxt e]) (mergeCriticality cr e.criticality)
            (min cf (normalizeConfidence e.confidence))
            (setAdd sr (orElseStr e.edgeSource (inferEdgeSource e.metadataSource)))
            vs (by simp) hcr2 hln2 p hp
        · exact ih pth cr cf sr _ current
            (fun eid2 h2 => hk eid2 (List.mem_cons_of_mem _ h2)) hlast hcr hln p hp

theorem traverseUp_crit (g : ServiceGraph) (sid : String)
    (hadj : ∀ v, ∀ eid ∈ mapGetD g.incoming v [], ∀ e,
      mapGet g.edges eid = some e → eid = e.source ++ "->" ++ v) :
    ∀ (fuel : Nat) (cur : String) (pth : List String) (cr : Crit) (cf : ℚ)
      (sr vs : List String),
      pth.getLast? = some cur →
      cr = weakestCrit (edgeCritsUp g pth) →
      (edgeCritsUp g pth).length + 1 = pth.length →
      ∀ p ∈ (traverseUp g sid fuel cur pth cr cf sr vs).1,
        p.criticality = weakestCrit (edgeCritsUp g p.path) ∧
        (edgeCritsUp g p.path).length + 1 = p.path.length := by
  intro fuel
  induction fuel with
  | zero =>
    intro cur pth cr cf sr vs hlast hcr hln p hp
    simp [traverseUp] at hp
  | succ fuel ih =>
    intro cur pth cr cf sr vs hlast hcr hln p hp
    rw [traverseUp] at hp
    by_cases hv : cur ∈ vs
    · simp [hv] at hp
    · simp only [hv, if_neg, not_false_iff] at hp
      exact goEdges_crit g sid (fun e => e.source) (fun a b => b ++ "->" ++ a)
        (traverseUp g sid fuel) (fun c q a d s v => ih c q a d s v)
        (mapGetD g.incoming cur []) pth cr cf sr (vs ++ [cur]) cur
        (fun eid h2 e hm => hadj cur eid h2 e hm) hlast hcr hln p hp

theorem traverseDown_crit (g : ServiceGraph) (sid : String)
    (hadj : ∀ v, ∀ eid ∈ mapGetD g.outgoing v [], ∀ e,
      mapGet g.edges eid = some e → eid = v ++ "->" ++ e.target) :
    ∀ (fuel : Nat) (cur : String) (pth : List String) (cr : Crit) (cf : ℚ)
      (sr vs : List String),
      pth.getLast? = some cur →
      cr = weakestCrit (edgeCritsDown g pth) →
      (edgeCritsDown g pth).length + 1 = pth.length →
      ∀ p ∈ (traverseDown g sid fuel cur pth cr cf sr vs).1,
        p.criticality = weakestCrit (edgeCritsDown g p.path) ∧
        (edgeCritsDown g p.path).length + 1 = p.path.length := by
  intro fuel
  induction fuel with
  | zero =>
    intro cur pth cr cf sr vs hlast hcr hln p hp
    simp [traverseDown] at hp
  | succ fuel ih =>
    intro cur pth cr cf sr vs hlast hcr hln p hp
    rw [traverseDown] at hp
    by_cases hv : cur ∈ vs
    · simp [hv] at hp
    · simp only [hv, if_neg, not_false_iff] at hp
      exact goEdges_crit g sid (fun e => e.target) (fun a b => a ++ "->" ++ b)
        (traverseDown g sid fuel) (fun c q a d s v => ih c q a d s v)
        (mapGetD g.outgoing cur []) pth cr cf sr (vs ++ [cur]) cur
        (fun eid h2 e hm => hadj cur eid h2 e hm) hlast hcr hln p hp

theorem GraphWF.inAdj {g : ServiceGraph} (w : GraphWF g) :
    ∀ v, ∀ eid ∈ mapGetD g.incoming v [], ∀ e, mapGet g.edges eid = some e →
      eid = e.source ++ "->" ++ v := by
  intro v eid hin e hm
  unfold mapGetD at hin
  rcases hv : mapGet g.incoming v with _ | l
  · rw [hv] at hin
    simp at hin
  · rw [hv] at hin
    simp only [Option.getD_some] at hin
    have hmem := mapGet_mem hv
    have hcons := w.inConsistent (v, l) hmem
    simp only at hcons
    rw [hcons] at hin
    rw [List.mem_map] at hin
    obtain ⟨q, hq, rfl⟩ := hin
    rw [List.mem_filter] at hq
    obtain ⟨hqe, hqt⟩ := hq
    have hqt2 : q.2.target = v := by simpa using hqt
    have hq1 : mapGet g.edges q.1 = some q.2 :=
      mapGet_of_nodup_mem w.edgesNodup (by exact hqe)
    rw [hq1] at hm
    obtain rfl : q.2 = e := by cases hm; rfl
    have hk := w.edgesKey q hqe
    rw [hk, hqt2]

theorem GraphWF.outAdj {g : ServiceGraph} (w : GraphWF g) :
    ∀ v, ∀ eid ∈ mapGetD g.outgoing v [], ∀ e, mapGet g.edges eid = some e →
      eid = v ++ "->" ++ e.target := by
  intro v eid hin e hm
  unfold mapGetD at hin
  rcases hv : mapGet g.outgoing v with _ | l
  · rw [hv] at hin
    simp at hin
  · rw [hv] at hin
    simp only [Option.getD_some] at hin
    have hmem := mapGet_mem hv
    have hcons := w.outConsistent (v, l) hmem
    simp only at hcons
    rw [hcons] at hin
    rw [List.mem_map] at hin
    obtain ⟨q, hq, rfl⟩ := hin
    rw [List.mem_filter] at hq
    obtain ⟨hqe, hqs⟩ := hq
    have hqs2 : q.2.source = v := by simpa using hqs
    have hq1 : mapGet g.edges q.1 = some q.2 :=
      mapGet_of_nodup_mem w.edgesNodup (by exact hqe)
    rw [hq1] at hm
    obtain rfl : q.2 = e := by cases hm; rfl
    have hk := w.edgesKey q hqe
    rw [hk, hqs2]

/-- The full invariant of `getUpstreamImpact` results: weakest-link
criticality over the path's edges, one edge per consecutive node pair, no
repeated node before the final one, the `hops = len(path)` accounting with
the `d + 2` depth bound, endpoints, and the start node. -/
theorem getUpstreamImpact_spec (g : ServiceGraph) (w : GraphWF g)
    (sid : String) (d : Nat) :
    ∀ p ∈ g.getUpstreamImpact sid d,
      p.criticality = weakestCrit (edgeCritsUp g p.path) ∧
      (edgeCritsUp g p.path).length + 1 = p.path.length ∧
      p.path.dropLast.Nodup ∧
      p.path.length ≤ d + 2 ∧
      p.hops = p.path.length ∧
      p.path.getLast? = some p.affected ∧
      p.source = sid ∧
      p.path.head? = some sid ∧ 2 ≤ p.path.length := by
  intro p hp
  rw [ServiceGraph.getUpstreamImpact, sortByHops, mem_sortBy] at hp
  have hs := traverseUp_struct g sid (d + 1) sid [sid] Crit.critical 1 [] []
    rfl (by intro x hx; cases hx) (by simp) p hp
  have hc := traverseUp_crit g sid w.inAdj (d + 1) sid [sid] Crit.critical 1 [] []
    rfl rfl rfl p hp
  obtain ⟨s1, s2, s3, s4, s5, s6, s7⟩ := hs
  obtain ⟨c1, c2⟩ := hc
  exact ⟨c1, c2, s1, by simp only [List.length_singleton] at s2; omega, s3, s4, s5, s6, s7⟩

/-- The full invariant of `getDownstreamImpact` results. -/
theorem getDownstreamImpact_spec (g : ServiceGraph) (w : GraphWF g)
    (sid : String) (d : Nat) :
    ∀ p ∈ g.getDownstreamImpact sid d,
      p.criticality = weakestCrit (edgeCritsDown g p.path) ∧
      (edgeCritsDown g p.path).length + 1 = p.path.length ∧
      p.path.dropLast.Nodup ∧
      p.path.length ≤ d + 2 ∧
      p.hops = p.path.length ∧
      p.path.getLast? = some p.affected ∧
      p.source = sid ∧
      p.path.head? = some sid ∧ 2 ≤ p.path.length := by
  intro p hp
  rw [ServiceGraph.getDownstreamImpact, sortByHops, mem_sortBy] at hp
  have hs := traverseDown_struct g sid (d + 1) sid [sid] Crit.critical 1 [] []
    rfl (by intro x hx; cases hx) (by simp) p hp
  have hc := traverseDown_crit g sid w.outAdj (d + 1) sid [sid] Crit.critical 1 [] []
    rfl rfl rfl p hp
  obtain ⟨s1, s2, s3, s4, s5, s6, s7⟩ := hs
  obtain ⟨c1, c2⟩ := hc
  exact ⟨c1, c2, s1, by simp only [List.length_singleton] at s2; omega, s3, s4, s5, s6, s7⟩

/-! ### Claims C6, C8, C10 — traversal properties -/

/-- C6 amended: for every graph and every path returned by either impact
traversal, all nodes except possibly the last are pairwise distinct.  (The
visited set guards node *expansion*, not path emission: the final node of a
path may close a cycle back onto an already-visited node, as the
counterexample shows.) -/
theorem claim6_amended (g : ServiceGraph) (sid : String) (d : Nat) :
    (∀ p ∈ g.getUpstreamImpact sid d, p.path.dropLast.Nodup) ∧
    (∀ p ∈ g.getDownstreamImpact sid d, p.path.dropLast.Nodup) := by
  constructor
  · intro p hp
    rw [ServiceGraph.getUpstreamImpact, sortByHops, mem_sortBy] at hp
    exact (traverseUp_struct g sid (d + 1) sid [sid] Crit.critical 1 [] []
      rfl (by intro x hx; cases hx) (by simp) p hp).1
  · intro p hp
    rw [ServiceGraph.getDownstreamImpact, sortByHops, mem_sortBy] at hp
    exact (traverseDown_struct g sid (d + 1) sid [sid] Crit.critical 1 [] []
      rfl (by intro x hx; cases hx) (by simp) p hp).1

/-- C6 amended witness: on the cycle fixture, the cyclic path `[t, a, t]`
still has a duplicate-free prefix `[t, a]`. -/
theorem claim6_amended_witness :
    ∀ p ∈ ServiceGraph.getUpstreamImpact graphCycle "t" 5, p.path.dropLast.Nodup :=
  (claim6_amended graphCycle "t" 5).1

/-- C8: for every well-formed graph, every path returned by either impact
traversal carries at least one edge, and its aggregated criticality is the
weakest of the criticalities of the traversed edges: it is one of them, and
every traversed criticality is at most as weak (`critical < degraded <
optional` in `critOrder`). -/
theorem claim8_weakest_link (g : ServiceGraph) (w : GraphWF g) (sid : String)
    (d : Nat) :
    (∀ p ∈ g.getUpstreamImpact sid d,
      edgeCritsUp g p.path ≠ [] ∧
      p.criticality ∈ edgeCritsUp g p.path ∧
      ∀ c ∈ edgeCritsUp g p.path, critOrder c ≤ critOrder p.criticality) ∧
    (∀ p ∈ g.getDownstreamImpact sid d,
      edgeCritsDown g p.path ≠ [] ∧
      p.criticality ∈ edgeCritsDown g p.path ∧
      ∀ c ∈ edgeCritsDown g p.path, critOrder c ≤ critOrder p.criticality) := by
  constructor
  · intro p hp
    obtain ⟨c1, c2, _, _, _, _, _, _, c9⟩ := getUpstreamImpact_spec g w sid d p hp
    have hne : edgeCritsUp g p.path ≠ [] := by
      intro he
      rw [he] at c2
      simp at c2
      omega
    refine ⟨hne, ?_, ?_⟩
    · rw [c1]; exact weakestCrit_mem _ hne
    · intro c hc
      rw [c1]
      exact weakestCrit_ge _ c hc
  · intro p hp
    obtain ⟨c1, c2, _, _, _, _, _, _, c9⟩ := getDownstreamImpact_spec g w sid d p hp
    have hne : edgeCritsDown g p.path ≠ [] := by
      intro he
      rw [he] at c2
      simp at c2
      omega
    refine ⟨hne, ?_, ?_⟩
    · rw [c1]; exact weakestCrit_mem _ hne
    · intro c hc
      rw [c1]
      exact weakestCrit_ge _ c hc

/-- C8 witness, scenario 10 of the spec: on
`A <-(critical)- B <-(optional)- C`, the upstream path `[A, B, C]` aggregates
to `optional` (the weakest of `[critical, optional]`), not `critical`. -/
theorem claim8_weakest_link_witness :
    ({ source := "A", affected := "C", path := ["A", "B", "C"], hops := 3,
       criticality := Crit.optionalC, confidence := 1,
       edgeSources := ["manual"] } : ImpactPath).criticality ∈
      edgeCritsUp graphWeakest ["A", "B", "C"] ∧
    ∀ c ∈ edgeCritsUp graphWeakest ["A", "B", "C"],
      critOrder c ≤ critOrder Crit.optionalC := by
  have h := (claim8_weakest_link graphWeakest (by with_unfolding_all decide)
    "A" 5).1
    { source := "A", affected := "C", path := ["A", "B", "C"], hops := 3,
      criticality := Crit.optionalC, confidence := 1, edgeSources := ["manual"] }
    (by with_unfolding_all decide)
  exact ⟨h.2.1, h.2.2⟩

/-- C10: the depth limit is checked on entry to a node, before its edges are
expanded, so `maxDepth = d` admits paths of up to `d + 1` edges — `hops` (the
node count) is bounded by `d + 2` — and a traversal with `maxDepth = 1`
already emits a two-edge path on the chain `A -> B -> C`. -/
theorem claim10_depth_off_by_one (g : ServiceGraph) (sid : String) (d : Nat) :
    (∀ p ∈ g.getUpstreamImpact sid d,
      p.hops = p.path.length ∧ p.path.length ≤ d + 2) ∧
    (∀ p ∈ g.getDownstreamImpact sid d,
      p.hops = p.path.length ∧ p.path.length ≤ d + 2) ∧
    (∃ p ∈ ServiceGraph.getDownstreamImpact graphChain "A" 1,
      p.path = ["A", "B", "C"] ∧ p.hops = 3) := by
  refine ⟨?_, ?_, ?_⟩
  · intro p hp
    rw [ServiceGraph.getUpstreamImpact, sortByHops, mem_sortBy] at hp
    have hs := traverseUp_struct g sid (d + 1) sid [sid] Crit.critical 1 [] []
      rfl (by intro x hx; cases hx) (by simp) p hp
    obtain ⟨_, s2, s3, _, _, _, _⟩ := hs
    simp only [List.length_singleton] at s2
    exact ⟨s3, by omega⟩
  · intro p hp
    rw [ServiceGraph.getDownstreamImpact, sortByHops, mem_sortBy] at hp
    have hs := traverseDown_struct g sid (d + 1) sid [sid] Crit.critical 1 [] []
      rfl (by intro x hx; cases hx) (by simp) p hp
    obtain ⟨_, s2, s3, _, _, _, _⟩ := hs
    simp only [List.length_singleton] at s2
    exact ⟨s3, by omega⟩
  · with_unfolding_all decide

/-- C10 witness: the bound applied on the concrete chain, at the two-edge
path produced with `maxDepth = 1`. -/
theorem claim10_depth_off_by_one_witness :
    ({ source := "A", affected := "C", path := ["A", "B", "C"], hops := 3,
       criticality := Crit.critical, confidence := 1,
       edgeSources := ["manual"] } : ImpactPath).hops ≤ 1 + 2 := by
  have h := (claim10_depth_off_by_one graphChain "A" 1).2.1
    { source := "A", affected := "C", path := ["A", "B", "C"], hops := 3,
      criticality := Crit.critical, confidence := 1, edgeSources := ["manual"] }
    (by with_unfolding_all decide)
  rw [h.1]
  exact h.2

/-! ### Claim C5 — velocity-trend windows -/

theorem getVelocityTrend_length (tbl : List ChangeEvent) (now : Int)
    (svc : String) (w : Int) (periods : Nat) :
    (getVelocityTrend tbl now svc w periods).length = periods := by
  simp [getVelocityTrend]

theorem getVelocityTrend_get (tbl : List ChangeEvent) (now : Int)
    (svc : String) (w : Int) (periods : Nat) (j : Nat)
    (hj : j < (getVelocityTrend tbl now svc w periods).length) :
    (getVelocityTrend tbl now svc w periods).get ⟨j, hj⟩ =
      { service := svc
        windowStart := now - ((periods - 1 - j : Nat) : Int) * w * 60000 - w * 60000
        windowEnd := now - ((periods - 1 - j : Nat) : Int) * w * 60000
        changeCount := (tbl.filter (fun e =>
          e.service = svc ∧
          now - ((periods - 1 - j : Nat) : Int) * w * 60000 - w * 60000 ≤ e.timestamp ∧
          e.timestamp ≤ now - ((periods - 1 - j : Nat) : Int) * w * 60000)).length
        changeTypes := countByType (tbl.filter (fun e =>
          e.service = svc ∧
          now - ((periods - 1 - j : Nat) : Int) * w * 60000 - w * 60000 ≤ e.timestamp ∧
          e.timestamp ≤ now - ((periods - 1 - j : Nat) : Int) * w * 60000))
        averageIntervalMinutes :=
          if (tbl.filter (fun e =>
            e.service = svc ∧
            now - ((periods - 1 - j : Nat) : Int) * w * 60000 - w * 60000 ≤ e.timestamp ∧
            e.timestamp ≤ now - ((periods - 1 - j : Nat) : Int) * w * 60000)).length > 1
          then (w : ℚ) / (tbl.filter (fun e =>
            e.service = svc ∧
            now - ((periods - 1 - j : Nat) : Int) * w * 60000 - w * 60000 ≤ e.timestamp ∧
            e.timestamp ≤ now - ((periods - 1 - j : Nat) : Int) * w * 60000)).length
          else 0 } := by
  have hjp : j < periods := by
    rw [getVelocityTrend_length] at hj
    exact hj
  unfold getVelocityTrend
  rw [List.get_eq_getElem]
  rw [List.getElem_reverse]
  rw [List.getElem_map, List.getElem_range]
  simp only [List.length_map, List.length_range, List.length_reverse]

/-- C5 amended: `getVelocityTrend(service, windowMinutes, periods)` produces
`periods` sequential windows of width `windowMinutes`, returned oldest-first
with adjacent windows sharing their boundary instant and the last window
ending at now; each window counts the events of the service whose timestamp
satisfies `windowStart ≤ t ≤ windowEnd` (both bounds inclusive) — so an
event lying exactly on the boundary between two adjacent windows is counted
once in each of them, not exactly once. -/
theorem claim5_amended (tbl : List ChangeEvent) (now : Int) (svc : String)
    (w : Int) (periods : Nat) (hw : 0 ≤ w) :
    (getVelocityTrend tbl now svc w periods).length = periods ∧
    (∀ m ∈ getVelocityTrend tbl now svc w periods,
      m.windowEnd = m.windowStart + w * 60000 ∧
      m.changeCount = (tbl.filter (fun e =>
        e.service = svc ∧ m.windowStart ≤ e.timestamp ∧
        e.timestamp ≤ m.windowEnd)).length) ∧
    (∀ j, ∀ hj : j + 1 < (getVelocityTrend tbl now svc w periods).length,
      ((getVelocityTrend tbl now svc w periods).get
        ⟨j, Nat.lt_of_succ_lt hj⟩).windowEnd =
      ((getVelocityTrend tbl now svc w periods).get ⟨j + 1, hj⟩).windowStart) ∧
    (∀ hp : 0 < (getVelocityTrend tbl now svc w periods).length,
      ((getVelocityTrend tbl now svc w periods).get
        ⟨(getVelocityTrend tbl now svc w periods).length - 1,
          Nat.sub_lt hp Nat.one_pos⟩).windowEnd = now) ∧
    (∀ j, ∀ hj : j + 1 < (getVelocityTrend tbl now svc w periods).length,
      ∀ e ∈ tbl, e.service = svc →
      e.timestamp = ((getVelocityTrend tbl now svc w periods).get
        ⟨j, Nat.lt_of_succ_lt hj⟩).windowEnd →
      1 ≤ ((getVelocityTrend tbl now svc w periods).get
        ⟨j, Nat.lt_of_succ_lt hj⟩).changeCount ∧
      1 ≤ ((getVelocityTrend tbl now svc w periods).get
        ⟨j + 1, hj⟩).changeCount) := by
  have hlen := getVelocityTrend_length tbl now svc w periods
  refine ⟨hlen, ?_, ?_, ?_, ?_⟩
  · intro m hm
    rw [List.mem_iff_get] at hm
    obtain ⟨⟨j, hj⟩, rfl⟩ := hm
    rw [getVelocityTrend_get]
    constructor
    · simp only
      ring
    · simp only
  · intro j hj
    rw [getVelocityTrend_get, getVelocityTrend_get]
    simp only
    have hjp : j + 1 < periods := by rw [hlen] at hj; exact hj
    have hc : ((periods - 1 - j : Nat) : Int) =
        ((periods - 1 - (j + 1) : Nat) : Int) + 1 := by omega
    rw [hc]
    ring
  · intro hp
    rw [getVelocityTrend_get]
    simp only
    have hpp : 0 < periods := by rw [hlen] at hp; exact hp
    have hc : ((periods - 1 - ((getVelocityTrend tbl now svc w periods).length - 1)
        : Nat) : Int) = 0 := by
      rw [hlen]
      omega
    rw [hc]
    ring
  · intro j hj e he hsvc hts
    have hjp : j + 1 < periods := by rw [hlen] at hj; exact hj
    constructor
    · rw [getVelocityTrend_get]
      simp only
      rw [getVelocityTrend_get] at hts
      simp only at hts
      have hmem : e ∈ tbl.filter (fun e2 =>
          e2.service = svc ∧
          now - ((periods - 1 - j : Nat) : Int) * w * 60000 - w * 60000 ≤ e2.timestamp ∧
          e2.timestamp ≤ now - ((periods - 1 - j : Nat) : Int) * w * 60000) := by
        rw [List.mem_filter]
        refine ⟨he, ?_⟩
        have h60 : (0 : Int) ≤ w * 60000 := by positivity
        simp only [decide_eq_true_eq]
        refine ⟨hsvc, ?_, ?_⟩
        · rw [hts]; omega
        · rw [hts]
      have := List.length_pos.mpr (List.ne_nil_of_mem hmem)
      omega
    · rw [getVelocityTrend_get]
      simp only
      rw [getVelocityTrend_get] at hts
      simp only at hts
      have hc : ((periods - 1 - j : Nat) : Int) =
          ((periods - 1 - (j + 1) : Nat) : Int) + 1 := by omega
      have hmem : e ∈ tbl.filter (fun e2 =>
          e2.service = svc ∧
          now - ((periods - 1 - (j + 1) : Nat) : Int) * w * 60000 - w * 60000 ≤ e2.timestamp ∧
          e2.timestamp ≤ now - ((periods - 1 - (j + 1) : Nat) : Int) * w * 60000) := by
        rw [List.mem_filter]
        refine ⟨he, ?_⟩
        have h60 : (0 : Int) ≤ w * 60000 := by positivity
        simp only [decide_eq_true_eq]
        refine ⟨hsvc, ?_, ?_⟩
        · rw [hts, hc]; ring_nf; omega
        · rw [hts, hc]; ring_nf; omega
      have := List.length_pos.mpr (List.ne_nil_of_mem hmem)
      omega

/-- C5 amended witness: the boundary fixture satisfies the double-count
conclusion concretely. -/
theorem claim5_amended_witness :
    1 ≤ ((getVelocityTrend tableC5 7200000 "api" 60 2).get
      ⟨0, by decide⟩).changeCount ∧
    1 ≤ ((getVelocityTrend tableC5 7200000 "api" 60 2).get
      ⟨1, by decide⟩).changeCount := by
  have h := (claim5_amended tableC5 7200000 "api" 60 2 (by decide)).2.2.2.2
    0 (by decide) ((insert [] 0 "e-b" eventBoundary).1)
    (by decide) (by decide) (by decide)
  exact h

/-! ### Claim C9 — graph serialization round-trip -/

theorem mapGet_eq_none_iff {α : Type} (m : List (String × α)) (k : String) :
    mapGet m k = none ↔ k ∉ m.map Prod.fst := by
  rcases hf : m.find? (fun p => p.1 = k) with _ | pr
  · have hg : mapGet m k = none := by unfold mapGet; rw [hf]
    rw [hg]
    simp only [true_iff]
    rw [List.find?_eq_none] at hf
    intro hk
    rw [List.mem_map] at hk
    obtain ⟨p, hp, hpk⟩ := hk
    have := hf p hp
    simp [hpk] at this
  · have hg : mapGet m k = some pr.2 := by unfold mapGet; rw [hf]
    rw [hg]
    have hm := List.mem_of_find?_eq_some hf
    have hp := List.find?_some hf
    simp at hp
    exact iff_of_false (by simp)
      (not_not_intro (List.mem_map.mpr ⟨pr, hm, hp⟩))

theorem mapSet_fresh {α : Type} (m : List (String × α)) (k : String) (v : α)
    (h : k ∉ m.map Prod.fst) : mapSet m k v = m ++ [(k, v)] := by
  induction m with
  | nil => rfl
  | cons p rest ih =>
    rw [List.map_cons, List.mem_cons] at h
    push_neg at h
    unfold mapSet
    rw [if_neg (by exact fun he => h.1 he.symm)]
    rw [ih h.2]
    rfl

theorem mapGet_mapSet_self {α : Type} (m : List (String × α)) (k : String)
    (v : α) : mapGet (mapSet m k v) k = some v := by
  induction m with
  | nil => simp [mapSet, mapGet, List.find?_cons]
  | cons p rest ih =>
    unfold mapSet
    by_cases h : p.1 = k
    · rw [if_pos h]
      simp [mapGet, List.find?_cons]
    · rw [if_neg h]
      simpa [mapGet, List.find?_cons, h] using ih

theorem mapGet_mapSet_other {α : Type} (m : List (String × α)) (k k2 : String)
    (v : α) (h : k2 ≠ k) : mapGet (mapSet m k v) k2 = mapGet m k2 := by
  have hks : ¬(k = k2) := fun he => h he.symm
  induction m with
  | nil => simp [mapSet, mapGet, List.find?_cons, hks]
  | cons p rest ih =>
    unfold mapSet
    by_cases hp : p.1 = k
    · rw [if_pos hp]
      have hk2 : ¬(k = k2) := fun he => h he.symm
      have hp2 : ¬(p.1 = k2) := by rw [hp]; exact hk2
      simp [mapGet, List.find?_cons, hk2, hp2]
    · rw [if_neg hp]
      by_cases hq : p.1 = k2
      · simp [mapGet, List.find?_cons, hq]
      · simpa [mapGet, List.find?_cons, hq] using ih

/-- The adjacency-consistency predicate (outgoing side): every node's entry
lists exactly the ids of the edges leaving it, in edge order. -/
def OutConsistentD (g : ServiceGraph) : Prop :=
  ∀ v, mapGetD g.outgoing v [] =
    (g.edges.filter (fun q => q.2.source = v)).map Prod.fst

/-- The adjacency-consistency predicate (incoming side). -/
def InConsistentD (g : ServiceGraph) : Prop :=
  ∀ v, mapGetD g.incoming v [] =
    (g.edges.filter (fun q => q.2.target = v)).map Prod.fst

theorem GraphWF.outConsistentD {g : ServiceGraph} (w : GraphWF g) :
    OutConsistentD g := by
  intro v
  unfold mapGetD
  rcases hv : mapGet g.outgoing v with _ | l
  · rw [mapGet_eq_none_iff] at hv
    simp only [Option.getD_none]
    by_contra hne
    have hex : ∃ q ∈ g.edges, q.2.source = v := by
      rcases hl : g.edges.filter (fun q => q.2.source = v) with _ | ⟨q, rest⟩
      · rw [hl] at hne
        simp at hne
      · have hq : q ∈ g.edges.filter (fun q => q.2.source = v) := by
          rw [hl]; exact List.mem_cons_self _ _
        rw [List.mem_filter] at hq
        exact ⟨q, hq.1, by simpa using hq.2⟩
    obtain ⟨q, hq, hqs⟩ := hex
    exact hv (by rw [← hqs]; exact w.outCover q hq)
  · have hmem := mapGet_mem hv
    have := w.outConsistent (v, l) hmem
    simpa using this

theorem GraphWF.inConsistentD {g : ServiceGraph} (w : GraphWF g) :
    InConsistentD g := by
  intro v
  unfold mapGetD
  rcases hv : mapGet g.incoming v with _ | l
  · rw [mapGet_eq_none_iff] at hv
    simp only [Option.getD_none]
    by_contra hne
    have hex : ∃ q ∈ g.edges, q.2.target = v := by
      rcases hl : g.edges.filter (fun q => q.2.target = v) with _ | ⟨q, rest⟩
      · rw [hl] at hne
        simp at hne
      · have hq : q ∈ g.edges.filter (fun q => q.2.target = v) := by
          rw [hl]; exact List.mem_cons_self _ _
        rw [List.mem_filter] at hq
        exact ⟨q, hq.1, by simpa using hq.2⟩
    obtain ⟨q, hq, hqt⟩ := hex
    exact hv (by rw [← hqt]; exact w.inCover q hq)
  · have hmem := mapGet_mem hv
    have := w.inConsistent (v, l) hmem
    simpa using this

theorem addService_pres (g : ServiceGraph) (now : Int) (s : ServiceNodeData)
    (hout : OutConsistentD g) (hin : InConsistentD g) :
    (g.addService now s).edges = g.edges ∧
    (g.addService now s).nodes = mapSet g.nodes s.id (stampNode now s) ∧
    OutConsistentD (g.addService now s) ∧ InConsistentD (g.addService now s) := by
  refine ⟨rfl, rfl, ?_, ?_⟩
  · intro v
    show mapGetD (if (mapGet g.outgoing s.id).isSome then g.outgoing
      else mapSet g.outgoing s.id []) v [] =
      (g.edges.filter (fun q => q.2.source = v)).map Prod.fst
    rcases hq : mapGet g.outgoing s.id with _ | l
    · simp only [Option.isSome_none, Bool.false_eq_true, if_false]
      by_cases hv : v = s.id
      · subst hv
        unfold mapGetD
        rw [mapGet_mapSet_self]
        have h2 := hout s.id
        unfold mapGetD at h2
        rw [hq] at h2
        simpa using h2.symm
      · unfold mapGetD
        rw [mapGet_mapSet_other _ _ _ _ hv]
        exact hout v
    · simp only [Option.isSome_some, if_true]
      exact hout v
  · intro v
    show mapGetD (if (mapGet g.incoming s.id).isSome then g.incoming
      else mapSet g.incoming s.id []) v [] =
      (g.edges.filter (fun q => q.2.target = v)).map Prod.fst
    rcases hq : mapGet g.incoming s.id with _ | l
    · simp only [Option.isSome_none, Bool.false_eq_true, if_false]
      by_cases hv : v = s.id
      · subst hv
        unfold mapGetD
        rw [mapGet_mapSet_self]
        have h2 := hin s.id
        unfold mapGetD at h2
        rw [hq] at h2
        simpa using h2.symm
      · unfold mapGetD
        rw [mapGet_mapSet_other _ _ _ _ hv]
        exact hin v
    · simp only [Option.isSome_some, if_true]
      exact hin v

theorem addDependency_pres (g : ServiceGraph) (now : Int) (e : DependencyEdge)
    (hnorm : normalizeEdge now e = e)
    (hfresh : edgeKey e ∉ g.edges.map Prod.fst)
    (hout : OutConsistentD g) (hin : InConsistentD g) :
    (g.addDependency now e).nodes = g.nodes ∧
    (g.addDependency now e).edges = g.edges ++ [(edgeKey e, e)] ∧
    OutConsistentD (g.addDependency now e) ∧
    InConsistentD (g.addDependency now e) := by
  have hedges : (g.addDependency now e).edges = g.edges ++ [(edgeKey e, e)] := by
    show mapSet g.edges (edgeKey e) (normalizeEdge now e) = _
    rw [hnorm, mapSet_fresh _ _ _ hfresh]
  refine ⟨rfl, hedges, ?_, ?_⟩
  · intro v
    show mapGetD (adjAdd g.outgoing e.source (edgeKey e)) v [] =
      ((g.addDependency now e).edges.filter (fun q => q.2.source = v)).map Prod.fst
    rw [hedges, List.filter_append]
    unfold adjAdd mapGetD
    by_cases hv : v = e.source
    · subst hv
      rw [mapGet_mapSet_self]
      have h1 := hout e.source
      unfold mapGetD at h1
      have hnot : edgeKey e ∉
          (g.edges.filter (fun q => q.2.source = e.source)).map Prod.fst := by
        intro hc
        rw [List.mem_map] at hc
        obtain ⟨q, hq, hqk⟩ := hc
        rw [List.mem_filter] at hq
        exact hfresh (List.mem_map.mpr ⟨q, hq.1, hqk⟩)
      show setAdd ((mapGet g.outgoing e.source).getD []) (edgeKey e) = _
      rw [h1, setAdd, if_neg hnot]
      simp [List.map_append]
    · rw [mapGet_mapSet_other _ _ _ _ hv]
      have h1 := hout v
      unfold mapGetD at h1
      rw [h1]
      have hne : ¬(e.source = v) := fun he => hv he.symm
      simp [hne]
  · intro v
    show mapGetD (adjAdd g.incoming e.target (edgeKey e)) v [] =
      ((g.addDependency now e).edges.filter (fun q => q.2.target = v)).map Prod.fst
    rw [hedges, List.filter_append]
    unfold adjAdd mapGetD
    by_cases hv : v = e.target
    · subst hv
      rw [mapGet_mapSet_self]
      have h1 := hin e.target
      unfold mapGetD at h1
      have hnot : edgeKey e ∉
          (g.edges.filter (fun q => q.2.target = e.target)).map Prod.fst := by
        intro hc
        rw [List.mem_map] at hc
        obtain ⟨q, hq, hqk⟩ := hc
        rw [List.mem_filter] at hq
        exact hfresh (List.mem_map.mpr ⟨q, hq.1, hqk⟩)
      show setAdd ((mapGet g.incoming e.target).getD []) (edgeKey e) = _
      rw [h1, setAdd, if_neg hnot]
      simp [List.map_append]
    · rw [mapGet_mapSet_other _ _ _ _ hv]
      have h1 := hin v
      unfold mapGetD at h1
      rw [h1]
      have hne : ¬(e.target = v) := fun he => hv he.symm
      simp [hne]

theorem foldl_addService_inv (now : Int) :
    ∀ (ns : List ServiceNodeData) (acc : ServiceGraph),
      (∀ n ∈ ns, n.id ∉ acc.nodes.map Prod.fst) →
      (ns.map (fun n => n.id)).Nodup →
      OutConsistentD acc → InConsistentD acc →
      (ns.foldl (fun gg s => gg.addService now s) acc).nodes =
        acc.nodes ++ ns.map (fun n => (n.id, stampNode now n)) ∧
      (ns.foldl (fun gg s => gg.addService now s) acc).edges = acc.edges ∧
      OutConsistentD (ns.foldl (fun gg s => gg.addService now s) acc) ∧
      InConsistentD (ns.foldl (fun gg s => gg.addService now s) acc) := by
  intro ns
  induction ns with
  | nil =>
    intro acc hfresh hnd hout hin
    exact ⟨by simp, rfl, hout, hin⟩
  | cons n rest ih =>
    intro acc hfresh hnd hout hin
    have hp := addService_pres acc now n hout hin
    obtain ⟨pe, pn, pout, pin⟩ := hp
    have hfr : n.id ∉ acc.nodes.map Prod.fst :=
      hfresh n (List.mem_cons_self _ _)
    have hnodes : (acc.addService now n).nodes =
        acc.nodes ++ [(n.id, stampNode now n)] := by
      rw [pn, mapSet_fresh _ _ _ hfr]
    rw [List.map_cons, List.nodup_cons] at hnd
    have hr := ih (acc.addService now n)
      (by
        intro n2 hn2
        rw [hnodes, List.map_append, List.mem_append]
        rintro (hc | hc)
        · exact hfresh n2 (List.mem_cons_of_mem _ hn2) hc
        · simp at hc
          exact hnd.1 (by rw [← hc]; exact List.mem_map.mpr ⟨n2, hn2, rfl⟩))
      hnd.2 pout pin
    obtain ⟨r1, r2, r3, r4⟩ := hr
    refine ⟨?_, ?_, r3, r4⟩
    · rw [List.foldl_cons] at *
      rw [r1, hnodes]
      simp
    · rw [List.foldl_cons] at *
      rw [r2, pe]

theorem foldl_addDependency_inv (now : Int) :
    ∀ (es : List DependencyEdge) (acc : ServiceGraph),
      (∀ e ∈ es, normalizeEdge now e = e) →
      (∀ e ∈ es, edgeKey e ∉ acc.edges.map Prod.fst) →
      (es.map edgeKey).Nodup →
      OutConsistentD acc → InConsistentD acc →
      (es.foldl (fun gg q => gg.addDependency now q) acc).nodes = acc.nodes ∧
      (es.foldl (fun gg q => gg.addDependency now q) acc).edges =
        acc.edges ++ es.map (fun e => (edgeKey e, e)) ∧
      OutConsistentD (es.foldl (fun gg q => gg.addDependency now q) acc) ∧
      InConsistentD (es.foldl (fun gg q => gg.addDependency now q) acc) := by
  intro es
  induction es with
  | nil =>
    intro acc hnorm hfresh hnd hout hin
    exact ⟨rfl, by simp, hout, hin⟩
  | cons e rest ih =>
    intro acc hnorm hfresh hnd hout hin
    have hp := addDependency_pres acc now e (hnorm e (List.mem_cons_self _ _))
      (hfresh e (List.mem_cons_self _ _)) hout hin
    obtain ⟨pn, pe, pout, pin⟩ := hp
    rw [List.map_cons, List.nodup_cons] at hnd
    have hr := ih (acc.addDependency now e)
      (fun e2 he2 => hnorm e2 (List.mem_cons_of_mem _ he2))
      (by
        intro e2 he2
        rw [pe, List.map_append, List.mem_append]
        rintro (hc | hc)
        · exact hfresh e2 (List.mem_cons_of_mem _ he2) hc
        · simp at hc
          exact hnd.1 (by rw [← hc]; exact List.mem_map.mpr ⟨e2, he2, rfl⟩))
      hnd.2 pout pin
    obtain ⟨r1, r2, r3, r4⟩ := hr
    refine ⟨?_, ?_, r3, r4⟩
    · rw [List.foldl_cons] at *
      rw [r1, pn]
    · rw [List.foldl_cons] at *
      rw [r2, pe]
      simp

theorem normalizeEdge_of_normalized (now : Int) (e : DependencyEdge)
    (hc : (e.confidence).isSome = true ∧ ∀ c ∈ e.confidence, 0 ≤ c ∧ c ≤ 1)
    (ht : (e.edgeSource).isSome = true ∧ ∀ s ∈ e.edgeSource, s ≠ "")
    (hs : (e.lastSeen).isSome = true) :
    normalizeEdge now e = e := by
  rcases hcv : e.confidence with _ | c
  · rw [hcv] at hc
    simp at hc
  rcases htv : e.edgeSource with _ | s
  · rw [htv] at ht
    simp at ht
  rcases hsv : e.lastSeen with _ | t
  · rw [hsv] at hs
    simp at hs
  have hcb := hc.2 c (by rw [hcv]; rfl)
  have htb := ht.2 s (by rw [htv]; rfl)
  unfold normalizeEdge
  rw [hcv, htv, hsv]
  have h1 : orElseStr (some s) (inferEdgeSource e.metadataSource) = s := by
    show (if s = "" then inferEdgeSource e.metadataSource else s) = s
    rw [if_neg htb]
  have h2 : normalizeConfidence (some c) = c := by
    show max 0 (min 1 c) = c
    rw [min_eq_right hcb.2, max_eq_right hcb.1]
  have h3 : (some t).getD now = t := rfl
  rw [h1, h2, h3, ← hcv, ← htv, ← hsv]

/-- C9 amended: restoring a serialized graph reproduces the same node ids
with every node attribute except the timestamps (`createdAt`/`updatedAt` are
restamped with the restoration time), the same edge map exactly, and the
same adjacency lists — hence the same adjacency counts. -/
theorem claim9_amended (g : ServiceGraph) (w : GraphWF g) (now2 : Int) :
    (ServiceGraph.fromJSON (ServiceGraph.toJSON g) now2).nodes.map
      (fun p => (p.1, nodeData p.2)) =
      g.nodes.map (fun p => (p.1, nodeData p.2)) ∧
    (∀ p ∈ (ServiceGraph.fromJSON (ServiceGraph.toJSON g) now2).nodes,
      p.2.createdAt = now2 ∧ p.2.updatedAt = now2) ∧
    (ServiceGraph.fromJSON (ServiceGraph.toJSON g) now2).edges = g.edges ∧
    (∀ v, mapGetD (ServiceGraph.fromJSON (ServiceGraph.toJSON g) now2).outgoing
      v [] = mapGetD g.outgoing v []) ∧
    (∀ v, mapGetD (ServiceGraph.fromJSON (ServiceGraph.toJSON g) now2).incoming
      v [] = mapGetD g.incoming v []) := by
  have hinner : ((g.nodes.map (fun p => p.2)).map nodeData).foldl
      (fun gg s => gg.addService now2 s) ServiceGraph.empty =
      (g.nodes.map (fun p => p.2)).foldl
        (fun gg n => gg.addService now2 (nodeData n)) ServiceGraph.empty := by
    rw [List.foldl_map]
  have hfold : ServiceGraph.fromJSON (ServiceGraph.toJSON g) now2 =
      (g.edges.map (fun p => p.2)).foldl
        (fun gg q => gg.addDependency now2 q)
        (((g.nodes.map (fun p => p.2)).map nodeData).foldl
          (fun gg s => gg.addService now2 s) ServiceGraph.empty) := by
    rw [hinner]
    rfl
  have hAnodup : (((g.nodes.map (fun p => p.2)).map nodeData).map
      (fun n => n.id)).Nodup := by
    have : ((g.nodes.map (fun p => p.2)).map nodeData).map (fun n => n.id) =
        g.nodes.map Prod.fst := by
      rw [List.map_map, List.map_map]
      apply List.map_congr_left
      intro p hp
      exact (w.nodesKey p hp).symm
    rw [this]
    exact w.nodesNodup
  have hA := foldl_addService_inv now2 ((g.nodes.map (fun p => p.2)).map nodeData)
    ServiceGraph.empty (by intro n hn hc; cases hc) hAnodup
    (by intro v; rfl) (by intro v; rfl)
  obtain ⟨a1, a2, a3, a4⟩ := hA
  have hBnodup : ((g.edges.map (fun p => p.2)).map edgeKey).Nodup := by
    have : (g.edges.map (fun p => p.2)).map edgeKey = g.edges.map Prod.fst := by
      rw [List.map_map]
      apply List.map_congr_left
      intro p hp
      exact (w.edgesKey p hp).symm
    rw [this]
    exact w.edgesNodup
  have hB := foldl_addDependency_inv now2 (g.edges.map (fun p => p.2))
    (((g.nodes.map (fun p => p.2)).map nodeData).foldl
      (fun gg s => gg.addService now2 s) ServiceGraph.empty)
    (by
      intro e he
      rw [List.mem_map] at he
      obtain ⟨p, hp, rfl⟩ := he
      exact normalizeEdge_of_normalized now2 p.2 (w.edgesConf p hp)
        (w.edgesTag p hp) (w.edgesSeen p hp))
    (by
      intro e he
      rw [a2]
      intro hc
      cases hc)
    hBnodup a3 a4
  obtain ⟨b1, b2, b3, b4⟩ := hB
  have hedges : (ServiceGraph.fromJSON (ServiceGraph.toJSON g) now2).edges =
      g.edges := by
    rw [hfold, b2, a2]
    show (g.edges.map (fun p => p.2)).map (fun e => (edgeKey e, e)) = g.edges
    rw [List.map_map]
    have : g.edges.map ((fun e => (edgeKey e, e)) ∘ fun p => p.2) =
        g.edges.map (fun p => p) := by
      apply List.map_congr_left
      intro p hp
      show (edgeKey p.2, p.2) = p
      have hk := w.edgesKey p hp
      show (p.2.source ++ "->" ++ p.2.target, p.2) = p
      rw [← hk]
    rw [this, List.map_id']
  have hnodes : (ServiceGraph.fromJSON (ServiceGraph.toJSON g) now2).nodes =
      g.nodes.map (fun p => (p.2.id, stampNode now2 (nodeData p.2))) := by
    rw [hfold, b1, a1]
    rw [List.map_map, List.map_map]
    rfl
  refine ⟨?_, ?_, hedges, ?_, ?_⟩
  · rw [hnodes, List.map_map]
    apply List.map_congr_left
    intro p hp
    show (p.2.id, nodeData (stampNode now2 (nodeData p.2))) = (p.1, nodeData p.2)
    have hk := w.nodesKey p hp
    rw [← hk]
    rfl
  · intro p hp
    rw [hnodes, List.mem_map] at hp
    obtain ⟨q, hq, rfl⟩ := hp
    exact ⟨rfl, rfl⟩
  · intro v
    have hc := (w.outConsistentD) v
    have hc2 : mapGetD (ServiceGraph.fromJSON (ServiceGraph.toJSON g) now2).outgoing
        v [] = (((ServiceGraph.fromJSON (ServiceGraph.toJSON g) now2).edges.filter
          (fun q => q.2.source = v)).map Prod.fst) := by
      rw [hfold]
      exact b3 v
    rw [hc2, hedges, hc]
  · intro v
    have hc := (w.inConsistentD) v
    have hc2 : mapGetD (ServiceGraph.fromJSON (ServiceGraph.toJSON g) now2).incoming
        v [] = (((ServiceGraph.fromJSON (ServiceGraph.toJSON g) now2).edges.filter
          (fun q => q.2.target = v)).map Prod.fst) := by
      rw [hfold]
      exact b4 v
    rw [hc2, hedges, hc]

/-- C9 amended witness at the concrete fixture graph, restored at a
different time. -/
theorem claim9_amended_witness :
    (ServiceGraph.fromJSON (ServiceGraph.toJSON graphRoundTrip) 9).edges =
      graphRoundTrip.edges ∧
    (∀ v, mapGetD (ServiceGraph.fromJSON
      (ServiceGraph.toJSON graphRoundTrip) 9).outgoing v [] =
      mapGetD graphRoundTrip.outgoing v []) := by
  have h := claim9_amended graphRoundTrip (by with_unfolding_all decide) 9
  exact ⟨h.2.2.1, h.2.2.2.1⟩

/-! ### Claim C7 — blast-radius confidence buckets -/

theorem mem_setAdd (l : List String) (x y : String) :
    x ∈ setAdd l y ↔ x = y ∨ x ∈ l := by
  unfold setAdd
  by_cases h : y ∈ l
  · rw [if_pos h]
    constructor
    · exact Or.inr
    · rintro (rfl | hx)
      · exact h
      · exact hx
  · rw [if_neg h]
    rw [List.mem_append, List.mem_singleton]
    tauto

theorem mem_foldl_setDelete (dels : List String) (l : List String) (x : String) :
    x ∈ dels.foldl setDelete l ↔ x ∈ l ∧ x ∉ dels := by
  induction dels generalizing l with
  | nil => simp
  | cons d rest ih =>
    rw [List.foldl_cons, ih]
    unfold setDelete
    rw [List.mem_filter]
    simp only [List.mem_cons, decide_eq_true_eq]
    constructor
    · rintro ⟨⟨hl, hd⟩, hr⟩
      exact ⟨hl, by rintro (rfl | hc); exact hd rfl; exact hr hc⟩
    · rintro ⟨hl, hnd⟩
      push_neg at hnd
      exact ⟨⟨hl, hnd.1⟩, hnd.2⟩

theorem predict_fold_bucket (proj : PredictAcc → List String)
    (cond : ImpactPath → Bool)
    (hstep : ∀ acc p, proj (predictStep acc p) =
      if cond p then setAdd (proj acc) p.affected else proj acc) :
    ∀ (ps : List ImpactPath) (acc : PredictAcc) (s : String),
      s ∈ proj (ps.foldl predictStep acc) ↔
        s ∈ proj acc ∨ ∃ p ∈ ps, p.affected = s ∧ cond p = true := by
  intro ps
  induction ps with
  | nil => intro acc s; simp
  | cons p rest ih =>
    intro acc s
    rw [List.foldl_cons, ih]
    rw [hstep]
    by_cases hc : cond p
    · rw [if_pos hc, mem_setAdd]
      constructor
      · rintro ((rfl | hm) | hex)
        · exact Or.inr ⟨p, List.mem_cons_self _ _, rfl, hc⟩
        · exact Or.inl hm
        · obtain ⟨q, hq, hqa, hqc⟩ := hex
          exact Or.inr ⟨q, List.mem_cons_of_mem _ hq, hqa, hqc⟩
      · rintro (hm | hex)
        · exact Or.inl (Or.inr hm)
        · obtain ⟨q, hq, hqa, hqc⟩ := hex
          rw [List.mem_cons] at hq
          rcases hq with rfl | hq
          · exact Or.inl (Or.inl hqa.symm)
          · exact Or.inr ⟨q, hq, hqa, hqc⟩
    · rw [if_neg hc]
      constructor
      · rintro (hm | hex)
        · exact Or.inl hm
        · obtain ⟨q, hq, hqa, hqc⟩ := hex
          exact Or.inr ⟨q, List.mem_cons_of_mem _ hq, hqa, hqc⟩
      · rintro (hm | hex)
        · exact Or.inl hm
        · obtain ⟨q, hq, hqa, hqc⟩ := hex
          rw [List.mem_cons] at hq
          rcases hq with rfl | hq
          · rw [hqc] at hc
            cases hc rfl
          · exact Or.inr ⟨q, hq, hqa, hqc⟩

theorem predict_targets_bucket (g : ServiceGraph) (md : Nat)
    (proj : PredictAcc → List String) (cond : ImpactPath → Bool)
    (hstep : ∀ acc p, proj (predictStep acc p) =
      if cond p then setAdd (proj acc) p.affected else proj acc) :
    ∀ (targets : List String) (acc : PredictAcc) (s : String),
      s ∈ proj (targets.foldl
        (fun a t => (g.getUpstreamImpact t md).foldl predictStep a) acc) ↔
      s ∈ proj acc ∨ ∃ t ∈ targets, ∃ p ∈ g.getUpstreamImpact t md,
        p.affected = s ∧ cond p = true := by
  intro targets
  induction targets with
  | nil => intro acc s; simp
  | cons t rest ih =>
    intro acc s
    rw [List.foldl_cons, ih, predict_fold_bucket proj cond hstep]
    constructor
    · rintro ((hm | hex) | hex)
      · exact Or.inl hm
      · obtain ⟨p, hp, hpa, hpc⟩ := hex
        exact Or.inr ⟨t, List.mem_cons_self _ _, p, hp, hpa, hpc⟩
      · obtain ⟨t2, ht2, p, hp, hpa, hpc⟩ := hex
        exact Or.inr ⟨t2, List.mem_cons_of_mem _ ht2, p, hp, hpa, hpc⟩
    · rintro (hm | hex)
      · exact Or.inl (Or.inl hm)
      · obtain ⟨t2, ht2, p, hp, hpa, hpc⟩ := hex
        rw [List.mem_cons] at ht2
        rcases ht2 with rfl | ht2
        · exact Or.inl (Or.inr ⟨p, hp, hpa, hpc⟩)
        · exact Or.inr ⟨t2, ht2, p, hp, hpa, hpc⟩

/-- C7 amended: confidence classification is per impact path.  A non-target
service is in `highConfidenceDependents` iff some upstream path reaching it
is high-confidence (confidence ≥ 0.75, and ≥ 0.9 if the path saw an
`inferred` edge), and in `possibleDependents` iff some path reaching it is
not; the buckets jointly cover every affected non-target service, but a
service reached by paths of differing confidence belongs to both — they are
not disjoint, and membership is not exclusive. -/
theorem claim7_amended (g : ServiceGraph) (targets : List String)
    (ct : Option String) (md : Nat) (s : String) :
    (s ∈ (predict g targets ct md).highConfidenceDependents ↔
      s ∉ targets ∧ ∃ t ∈ targets, ∃ p ∈ g.getUpstreamImpact t md,
        p.affected = s ∧ isHighConfidencePath p = true) ∧
    (s ∈ (predict g targets ct md).possibleDependents ↔
      s ∉ targets ∧ ∃ t ∈ targets, ∃ p ∈ g.getUpstreamImpact t md,
        p.affected = s ∧ isHighConfidencePath p = false) ∧
    (s ∈ (predict g targets ct md).directServices ∨
      s ∈ (predict g targets ct md).downstreamServices →
      s ∈ (predict g targets ct md).highConfidenceDependents ∨
      s ∈ (predict g targets ct md).possibleDependents) := by
  have hhigh : (predict g targets ct md).highConfidenceDependents =
      targets.foldl setDelete
        ((targets.foldl
          (fun a t => (g.getUpstreamImpact t md).foldl predictStep a)
          {}).high) := rfl
  have hposs : (predict g targets ct md).possibleDependents =
      targets.foldl setDelete
        ((targets.foldl
          (fun a t => (g.getUpstreamImpact t md).foldl predictStep a)
          {}).possible) := rfl
  have hdir : (predict g targets ct md).directServices =
      targets.foldl setDelete
        ((targets.foldl
          (fun a t => (g.getUpstreamImpact t md).foldl predictStep a)
          {}).direct) := rfl
  have hdown : (predict g targets ct md).downstreamServices =
      (targets.foldl setDelete
        ((targets.foldl
          (fun a t => (g.getUpstreamImpact t md).foldl predictStep a)
          {}).direct)).foldl setDelete
        (targets.foldl setDelete
          ((targets.foldl
            (fun a t => (g.getUpstreamImpact t md).foldl predictStep a)
            {}).downstream)) := rfl
  have hstepHigh : ∀ (acc : PredictAcc) (p : ImpactPath),
      (predictStep acc p).high =
        if isHighConfidencePath p then setAdd acc.high p.affected
        else acc.high := fun acc p => rfl
  have hstepPoss : ∀ (acc : PredictAcc) (p : ImpactPath),
      (predictStep acc p).possible =
        if !isHighConfidencePath p then setAdd acc.possible p.affected
        else acc.possible := by
    intro acc p
    show (if isHighConfidencePath p then acc.possible
      else setAdd acc.possible p.affected) = _
    by_cases hb : isHighConfidencePath p <;> simp [hb]
  have hstepDir : ∀ (acc : PredictAcc) (p : ImpactPath),
      (predictStep acc p).direct =
        if decide (p.hops ≤ 2) then setAdd acc.direct p.affected
        else acc.direct := by
    intro acc p
    show (if p.hops ≤ 2 then setAdd acc.direct p.affected else acc.direct) = _
    by_cases hb : p.hops ≤ 2 <;> simp [hb]
  have hstepDown : ∀ (acc : PredictAcc) (p : ImpactPath),
      (predictStep acc p).downstream =
        if !decide (p.hops ≤ 2) then setAdd acc.downstream p.affected
        else acc.downstream := by
    intro acc p
    show (if p.hops ≤ 2 then acc.downstream
      else setAdd acc.downstream p.affected) = _
    by_cases hb : p.hops ≤ 2 <;> simp [hb]
  have hH : s ∈ (predict g targets ct md).highConfidenceDependents ↔
      s ∉ targets ∧ ∃ t ∈ targets, ∃ p ∈ g.getUpstreamImpact t md,
        p.affected = s ∧ isHighConfidencePath p = true := by
    rw [hhigh, mem_foldl_setDelete,
      predict_targets_bucket g md (fun a => a.high) isHighConfidencePath
        hstepHigh]
    simp only [show (({} : PredictAcc)).high = [] from rfl]
    simp only [List.not_mem_nil, false_or]
    constructor
    · rintro ⟨⟨t, ht, p, hp, hpa, hpc⟩, hnt⟩
      exact ⟨hnt, t, ht, p, hp, hpa, hpc⟩
    · rintro ⟨hnt, t, ht, p, hp, hpa, hpc⟩
      exact ⟨⟨t, ht, p, hp, hpa, hpc⟩, hnt⟩
  have hP : s ∈ (predict g targets ct md).possibleDependents ↔
      s ∉ targets ∧ ∃ t ∈ targets, ∃ p ∈ g.getUpstreamImpact t md,
        p.affected = s ∧ isHighConfidencePath p = false := by
    rw [hposs, mem_foldl_setDelete,
      predict_targets_bucket g md (fun a => a.possible)
        (fun p => !isHighConfidencePath p) hstepPoss]
    simp only [show (({} : PredictAcc)).possible = [] from rfl]
    simp only [List.not_mem_nil, false_or]
    constructor
    · rintro ⟨⟨t, ht, p, hp, hpa, hpc⟩, hnt⟩
      simp only [Bool.not_eq_true'] at hpc
      exact ⟨hnt, t, ht, p, hp, hpa, hpc⟩
    · rintro ⟨hnt, t, ht, p, hp, hpa, hpc⟩
      refine ⟨⟨t, ht, p, hp, hpa, ?_⟩, hnt⟩
      simp only [Bool.not_eq_true']
      exact hpc
  refine ⟨hH, hP, ?_⟩
  rintro (hd | hd)
  · rw [hdir, mem_foldl_setDelete,
      predict_targets_bucket g md (fun a => a.direct)
        (fun p => decide (p.hops ≤ 2)) hstepDir] at hd
    simp only [show (({} : PredictAcc)).direct = [] from rfl,
      List.not_mem_nil, false_or] at hd
    obtain ⟨⟨t, ht, p, hp, hpa, _⟩, hnt⟩ := hd
    by_cases hc : isHighConfidencePath p
    · exact Or.inl (hH.mpr ⟨hnt, t, ht, p, hp, hpa, hc⟩)
    · exact Or.inr (hP.mpr ⟨hnt, t, ht, p, hp, hpa, by
        simp only [Bool.not_eq_true] at hc
        exact hc⟩)
  · rw [hdown, mem_foldl_setDelete, mem_foldl_setDelete,
      predict_targets_bucket g md (fun a => a.downstream)
        (fun p => !decide (p.hops ≤ 2)) hstepDown] at hd
    simp only [show (({} : PredictAcc)).downstream = [] from rfl,
      List.not_mem_nil, false_or] at hd
    obtain ⟨⟨⟨t, ht, p, hp, hpa, _⟩, hnt⟩, _⟩ := hd
    by_cases hc : isHighConfidencePath p
    · exact Or.inl (hH.mpr ⟨hnt, t, ht, p, hp, hpa, hc⟩)
    · exact Or.inr (hP.mpr ⟨hnt, t, ht, p, hp, hpa, by
        simp only [Bool.not_eq_true] at hc
        exact hc⟩)

/-- C7 amended witness: on the fixture, `a` is a non-target reached by a
high-confidence path, so the amended characterization puts it in the
high-confidence bucket. -/
theorem claim7_amended_witness :
    "a" ∈ (predict graphBuckets ["t"]).highConfidenceDependents ∧
    "b" ∈ (predict graphBuckets ["t"]).possibleDependents := by
  constructor
  · exact (claim7_amended graphBuckets ["t"] none 3 "a").1.mpr
      (by with_unfolding_all decide)
  · exact (claim7_amended graphBuckets ["t"] none 3 "b").2.1.mpr
      (by with_unfolding_all decide)

/-! ### Claim C2 — correlator service expansion -/

theorem foldl_congr_mem {α β : Type} (l : List β) (f g2 : α → β → α) (a : α)
    (h : ∀ acc b, b ∈ l → f acc b = g2 acc b) : l.foldl f a = l.foldl g2 a := by
  induction l generalizing a with
  | nil => rfl
  | cons b rest ih =>
    rw [List.foldl_cons, List.foldl_cons, h a b (List.mem_cons_self _ _)]
    exact ih _ (fun acc b2 hb2 => h acc b2 (List.mem_cons_of_mem _ hb2))

theorem query_subset (tbl : List ChangeEvent) (o : ChangeQueryOptions) :
    ∀ e ∈ query tbl o, e ∈ tbl := by
  intro e he
  simp only [query] at he
  have h1 := List.take_subset _ _ he
  rw [mem_sortBy] at h1
  exact List.mem_of_mem_filter h1

theorem correlateCandidates_subset (tbl : List ChangeEvent) (now wm : Int)
    (expanded : List (String × Nat)) :
    ∀ e ∈ correlateCandidates tbl now wm expanded, e ∈ tbl := by
  intro e he
  unfold correlateCandidates at he
  by_cases h : expanded.length = 0
  · rw [if_pos h] at he
    exact query_subset _ _ e he
  · rw [if_neg h] at he
    exact query_subset _ _ e he

/-- `scoreChange` consults the decay function only at the event's time
delta. -/
theorem scoreChange_decay_congr (g : ServiceGraph) (d1 d2 : ℚ → ℚ)
    (change : ChangeEvent) (ds : List String) (ex : List (String × Nat))
    (its : Int) (ienv : Option String)
    (h : d1 (((|its - change.timestamp| : ℤ) : ℚ) / 60000) =
         d2 (((|its - change.timestamp| : ℤ) : ℚ) / 60000)) :
    scoreChange g d1 change ds ex its ienv =
    scoreChange g d2 change ds ex its ienv := by
  simp only [scoreChange]
  rw [h]

theorem correlateStep_congr (g : ServiceGraph) (d1 d2 : ℚ → ℚ)
    (ds : List String) (ex : List (String × Nat)) (its : Int)
    (ienv : Option String) (ms : ℚ) (acc : List ChangeCorrelation)
    (change : ChangeEvent)
    (h : d1 (((|its - change.timestamp| : ℤ) : ℚ) / 60000) =
         d2 (((|its - change.timestamp| : ℤ) : ℚ) / 60000)) :
    correlateStep g d1 ds ex its ienv ms acc change =
    correlateStep g d2 ds ex its ienv ms acc change := by
  unfold correlateStep
  rw [scoreChange_decay_congr g d1 d2 change ds ex its ienv h]

/-- `correlateWithIncident` consults the decay function only at the time
deltas of stored events. -/
theorem correlate_decay_congr (g : ServiceGraph) (tbl : List ChangeEvent)
    (d1 d2 : ℚ → ℚ) (now : Int) (aff : List String) (its : Int)
    (opts : CorrelateOptions)
    (h : ∀ c ∈ tbl, d1 (((|its - c.timestamp| : ℤ) : ℚ) / 60000) =
      d2 (((|its - c.timestamp| : ℤ) : ℚ) / 60000)) :
    correlateWithIncident g tbl d1 now aff its opts =
    correlateWithIncident g tbl d2 now aff its opts := by
  simp only [correlateWithIncident]
  rw [foldl_congr_mem
    (correlateCandidates tbl now (opts.windowMinutes.getD 120)
      (expandServices g aff))
    (correlateStep g d1 aff (expandServices g aff) its
      opts.incidentEnvironment (opts.minScore.getD 0.1))
    (correlateStep g d2 aff (expandServices g aff) its
      opts.incidentEnvironment (opts.minScore.getD 0.1))
    []
    (fun acc c hc => correlateStep_congr g d1 d2 aff (expandServices g aff)
      its opts.incidentEnvironment (opts.minScore.getD 0.1) acc c
      (h c (correlateCandidates_subset tbl now (opts.windowMinutes.getD 120)
        (expandServices g aff) c hc)))]

/-- C2 amended: in the chain `A -> B -> C`, `expandServices(["A"])` assigns
hop distance 1 to *both* `B` (one edge away) and `C` (two edges away) —
the depth limit is checked on node entry, so the `maxDepth = 1` traversal
already includes two-edge paths — and `correlate(["A"], T,
{windowMinutes: 60})` returns the `C` event with `serviceOverlap = ["C"]`,
the reason tag `"1-hop graph neighbor: C"` and score 0.725.  Stated for
every decay function with `decay 0 = 1`, which covers `Math.exp` exactly
(the only call in this scenario is at time delta 0). -/
theorem claim2_amended (decay : ℚ → ℚ) (hd : decay 0 = 1) :
    mapGet (expandServices graphChain ["A"]) "B" = some 1 ∧
    mapGet (expandServices graphChain ["A"]) "C" = some 1 ∧
    (correlateWithIncident graphChain tableC2 decay 0 ["A"] 0
      { windowMinutes := some 60 }).map
      (fun c => (c.changeEvent.service, c.serviceOverlap, c.correlationReasons,
        c.correlationScore)) =
      [("C", ["C"],
        ["Very recent change (0min from incident)", "1-hop graph neighbor: C"],
        0.725)] := by
  refine ⟨by with_unfolding_all decide, by with_unfolding_all decide, ?_⟩
  have hcong : correlateWithIncident graphChain tableC2 decay 0 ["A"] 0
      { windowMinutes := some 60 } =
      correlateWithIncident graphChain tableC2 (fun _ => 1) 0 ["A"] 0
      { windowMinutes := some 60 } := by
    apply correlate_decay_congr
    intro c hc
    have htbl : tableC2 = [(insert [] 0 "ev-1" eventOnC).1] := rfl
    rw [htbl, List.mem_singleton] at hc
    subst hc
    have hts : (insert [] 0 "ev-1" eventOnC).1.timestamp = 0 := rfl
    rw [hts]
    have hz : (((|(0 : ℤ) - 0| : ℤ) : ℚ) / 60000) = 0 := by norm_num
    rw [hz, hd]
  rw [hcong]
  with_unfolding_all decide

/-- C2 amended witness at the constant-1 decay function. -/
theorem claim2_amended_witness :
    (correlateWithIncident graphChain tableC2 (fun _ => 1) 0 ["A"] 0
      { windowMinutes := some 60 }).map
      (fun c => (c.changeEvent.service, c.serviceOverlap, c.correlationReasons,
        c.correlationScore)) =
      [("C", ["C"],
        ["Very recent change (0min from incident)", "1-hop graph neighbor: C"],
        0.725)] :=
  (claim2_amended (fun _ => 1) rfl).2.2

end CI
